import Mathlib

/-!
Verification development for the Telegram legal-assistant bot (`src/bot.py`).

The bot is embedded shallowly:
* `markdown_to_html` is the text normalizer (the chain of `re.sub` rewrites);
  each regex is translated to an executable scanner over `List Char` with
  Python `re.sub` semantics (leftmost match, lazy/greedy quantifiers as in the
  source patterns, scan resumes after the match, one-character advance on
  failure).
* `UserLimits` with its rollover/gate/increment methods mirrors the class of
  the same name.
* the message/document handlers are functions from their inputs (current date,
  per-user state, message payload, and the behavior of the external
  collaborators: the two remote backends, the file-extraction adapter, the
  docx builder) to a trace of transport effects plus the updated state.
  The background typing task (`keep_typing`) is represented by `tick` events
  and the `cancel`/`await` pair emitted by the `finally` blocks.
-/

set_option maxRecDepth 20000

namespace Bot

/-- Characters matched by the Python regex class `\s` (and trimmed by
`str.strip()`): space, tab, newline, carriage return, vertical tab, form feed. -/
def isWS (c : Char) : Bool :=
  c == ' ' || c == '\t' || c == '\n' || c == '\r' || c == '\x0b' || c == '\x0c'

/-- Characters matched by the class `[ \t]` of the space-collapsing rule. -/
def isST (c : Char) : Bool := c == ' ' || c == '\t'

/-- Number of newline characters in a fragment. -/
def countNL (l : List Char) : Nat := l.count '\n'

/-- `startsWithL p s`: the pattern `p` is a literal prefix of `s`. -/
def startsWithL : List Char → List Char → Bool
  | [], _ => true
  | _ :: _, [] => false
  | p :: ps, c :: cs => p == c && startsWithL ps cs

/-- Lazy search for the closing delimiter `d` used by the patterns
`\*\*(.*?)\*\*`, `\*(.*?)\*` and `` `(.*?)` ``: the capture group `(.*?)`
takes the shortest prefix (never containing a newline, since `.` does not
match `\n`) such that `d` follows.  Returns the capture and the text after
the closing delimiter, or `none` when the whole match attempt fails. -/
def findClose (d : List Char) : List Char → Option (List Char × List Char)
  | [] => none
  | c :: cs =>
    if startsWithL d (c :: cs) then some ([], List.drop d.length (c :: cs))
    else if c == '\n' then none
    else
      match findClose d cs with
      | some (cap, rest) => some (c :: cap, rest)
      | none => none

/-- One `re.sub` pass for a pattern `d(.*?)d` with replacement
`lt ++ capture ++ rt` (the bold/italic/code rules).  The `Nat` argument is
fuel only; it is instantiated with the length of the input, which always
suffices because every step consumes at least one character. -/
def subPairF (lt rt d : List Char) : Nat → List Char → List Char
  | 0, s => s
  | _ + 1, [] => []
  | f + 1, c :: cs =>
    if startsWithL d (c :: cs) then
      match findClose d (List.drop d.length (c :: cs)) with
      | some (cap, rest) => lt ++ cap ++ rt ++ subPairF lt rt d f rest
      | none => c :: subPairF lt rt d f cs
    else c :: subPairF lt rt d f cs

def subPair (lt rt d s : List Char) : List Char := subPairF lt rt d s.length s

/-- One `re.sub` pass for a header pattern `h\s*(.*)` (with `h` one of
`###`, `##`, `#`) and replacement `<b>\1</b>`.  `\s*` is greedy (and may
cross newlines), the capture `(.*)` extends to the end of the line. -/
def subHdrF (h : List Char) : Nat → List Char → List Char
  | 0, s => s
  | _ + 1, [] => []
  | f + 1, c :: cs =>
    if startsWithL h (c :: cs) then
      let tailWS := (List.drop h.length (c :: cs)).dropWhile isWS
      "<b>".data ++ tailWS.takeWhile (fun x => !(x == '\n')) ++ "</b>".data
        ++ subHdrF h f (tailWS.dropWhile (fun x => !(x == '\n')))
    else c :: subHdrF h f cs

def subHdr (h s : List Char) : List Char := subHdrF h s.length s

/-- Digit classes of the citation pattern `\[([1-9]|1[0-9]|20)\]`. -/
def isD19 (c : Char) : Bool := '1' ≤ c && c ≤ '9'

def isD09 (c : Char) : Bool := '0' ≤ c && c ≤ '9'

/-- One `re.sub` pass removing the bracketed citation markers `[1]`–`[20]`
(pattern `\[([1-9]|1[0-9]|20)\]`, replacement empty). -/
def subCite : List Char → List Char
  | [] => []
  | '[' :: d :: ']' :: rest =>
    if isD19 d then subCite rest else '[' :: subCite (d :: ']' :: rest)
  | '[' :: '1' :: d :: ']' :: rest =>
    if isD09 d then subCite rest else '[' :: subCite ('1' :: d :: ']' :: rest)
  | '[' :: '2' :: '0' :: ']' :: rest => subCite rest
  | c :: cs => c :: subCite cs

/-- The generic bracket-removal rule `[\[\]()]` → empty. -/
def stripBrackets (s : List Char) : List Char :=
  s.filter (fun c => !(c == '[' || c == ']' || c == '(' || c == ')'))

/-- The suffix of a fragment after its last newline. -/
def afterLastNL (l : List Char) : List Char :=
  (l.reverse.takeWhile (fun c => !(c == '\n'))).reverse

/-- Action of the blank-line rule `\n\s*\n\s*\n+` → `\n\n` on one maximal
whitespace run: a run containing at least three newlines is matched from its
first to its last newline (leftmost match, greedy quantifiers with
backtracking) and that span is replaced by exactly two newlines. -/
def flushRun (q : List Char) : List Char :=
  if 3 ≤ countNL q then
    q.takeWhile (fun c => !(c == '\n')) ++ '\n' :: '\n' :: afterLastNL q
  else q

/-- Scanner for the blank-line rule; `p` is the reversed whitespace run
collected so far. -/
def collapseNLgo : List Char → List Char → List Char
  | p, [] => flushRun p.reverse
  | p, c :: cs =>
    if isWS c then collapseNLgo (c :: p) cs
    else flushRun p.reverse ++ c :: collapseNLgo [] cs

def collapseNL (s : List Char) : List Char := collapseNLgo [] s

/-- The horizontal-whitespace rule `[ \t]+` → one space: every maximal run
of spaces/tabs becomes a single space (emitted at the end of the run);
newlines are untouched. -/
def collapseSP : List Char → List Char
  | [] => []
  | [c] => if isST c then [' '] else [c]
  | c :: d :: cs =>
    if isST c then
      (if isST d then collapseSP (d :: cs) else ' ' :: collapseSP (d :: cs))
    else c :: collapseSP (d :: cs)

/-- Remove the maximal whitespace suffix (the trailing half of `str.strip()`). -/
def dropTrailingWS : List Char → List Char
  | [] => []
  | c :: cs =>
    let t := dropTrailingWS cs
    if t.isEmpty && isWS c then [] else c :: t

/-- Python `str.strip()`. -/
def pyStrip (s : List Char) : List Char := dropTrailingWS (s.dropWhile isWS)

/-- The whitespace-normalization tail of the pipeline: blank-line collapse,
space collapse, strip. -/
def wnorm (s : List Char) : List Char := pyStrip (collapseSP (collapseNL s))

/-- `markdown_to_html` from `src/bot.py`: the full chain of `re.sub`
rewrites followed by `strip()`. -/
def markdown_to_html (s : String) : String :=
  let t1 := subPair "<b>".data "</b>".data "**".data s.data
  let t2 := subPair "<i>".data "</i>".data "*".data t1
  let t3 := subPair "<code>".data "</code>".data "`".data t2
  let t4 := subHdr "###".data t3
  let t5 := subHdr "##".data t4
  let t6 := subHdr "#".data t5
  let t7 := subCite t6
  let t8 := stripBrackets t7
  String.mk (wnorm t8)

/-! ## Daily quota store (`UserLimits`) -/

def DAILY_QUESTION_LIMIT : Nat := 10

def DAILY_DOCUMENT_LIMIT : Nat := 10

/-- Per-user quota record; calendar dates are day numbers. -/
structure UserLimits where
  questions_count : Nat
  documents_count : Nat
  last_reset : Nat
deriving DecidableEq, Repr

/-- `reset_if_needed`: rollover when the current date is past the anchor. -/
def reset_if_needed (today : Nat) (u : UserLimits) : UserLimits :=
  if u.last_reset < today then
    { questions_count := 0, documents_count := 0, last_reset := today }
  else u

/-- `can_ask_question` (mutating method: also returns the updated record). -/
def can_ask_question (today : Nat) (u : UserLimits) : Bool × UserLimits :=
  let v := reset_if_needed today u
  (decide (v.questions_count < DAILY_QUESTION_LIMIT), v)

/-- `can_process_document`. -/
def can_process_document (today : Nat) (u : UserLimits) : Bool × UserLimits :=
  let v := reset_if_needed today u
  (decide (v.documents_count < DAILY_DOCUMENT_LIMIT), v)

def increment_questions (today : Nat) (u : UserLimits) : UserLimits :=
  let v := reset_if_needed today u
  { v with questions_count := v.questions_count + 1 }

def increment_documents (today : Nat) (u : UserLimits) : UserLimits :=
  let v := reset_if_needed today u
  { v with documents_count := v.documents_count + 1 }

/-! ## Remote gateway

`ask_perplexity` performs a raw HTTP request and digs through the parsed
JSON body (`result["choices"][0]["message"]["content"]`); any exception in
the `try` block (connection error, timeout, `raise_for_status`, missing or
ill-typed fields) yields the fixed apology string.  `ask_chatgpt` goes
through the OpenAI SDK, whose parsed `message.content` is an optional
string.  Python values that can flow out of these functions are modeled by
`PyVal` (`None`, a `str`, or some other object). -/

inductive Json where
  | null
  | str (s : String)
  | num (n : Int)
  | boolean (b : Bool)
  | arr (xs : List Json)
  | obj (fields : List (String × Json))

def lookupField : List (String × Json) → String → Option Json
  | [], _ => none
  | (k, v) :: fs, key => if k == key then some v else lookupField fs key

/-- Python `d[k]` on a parsed-JSON object: raises (returns `none`) unless the
value is an object with that key. -/
def jget (j : Json) (k : String) : Option Json :=
  match j with
  | .obj fs => lookupField fs k
  | _ => none

/-- Python `l[i]` on a parsed-JSON value: raises unless it is a long-enough array. -/
def jidx (j : Json) (i : Nat) : Option Json :=
  match j with
  | .arr xs => xs.get? i
  | _ => none

/-- `result["choices"][0]["message"]["content"]`. -/
def firstCandidate (body : Json) : Option Json :=
  (jget body "choices").bind fun c =>
    (jidx c 0).bind fun c0 =>
      (jget c0 "message").bind fun m => jget m "content"

/-- A Python value reaching the caller of the gateway functions. -/
inductive PyVal where
  | pyNone
  | pyStr (s : String)
  | pyOther (j : Json)

def pyOfJson : Json → PyVal
  | .null => .pyNone
  | .str s => .pyStr s
  | j => .pyOther j

def isPyStr : PyVal → Bool
  | .pyStr _ => true
  | _ => false

/-- Behavior of the question-answering HTTP backend for one call:
`requests.post` raises (network failure or 30 s timeout), or returns a
response with a status code and a body (`none` when `response.json()`
raises on a non-JSON body). -/
inductive HttpOutcome where
  | netError
  | resp (status : Nat) (body : Option Json)

/-- Behavior of the SDK-based document backend for one call: the call
raises, or returns a parsed completion whose first choice has an optional
`message.content`. -/
inductive ChatOutcome where
  | raiseErr
  | ok (content : Option String)

/-- Transport/side effects emitted by the handlers, in order. `tick` is one
`send_chat_action` emission of the background `keep_typing` task;
`cancelTask`/`awaitedTask` are `typing_task.cancel()` and the completed
`await typing_task` of a `finally` block. -/
inductive Ev where
  | sendText (msg : String)
  | sendDocument (filename : String) (content : String) (caption : String)
  | sendWaiting (msg : String)
  | deleteWaitingMsg
  | chatAction
  | tick
  | cancelTask
  | awaitedTask
  | logAction (action : String) (query : String)
  | remoteAsk (question : String)
  | remoteDoc (system : String) (full_prompt : String) (doc : String)
  | save
  | getFile
deriving DecidableEq

def apologyAsk : String :=
  "Извините, произошла ошибка при обработке вашего запроса. Попробуйте позже."

def apologyDoc : String :=
  "Извините, произошла ошибка при обработке документа. Попробуйте позже."

def raise_for_status (status : Nat) : Bool := decide (400 ≤ status)

/-- `ask_perplexity`: emits the remote call, never raises; on any exception
inside its `try` it returns the apology string, otherwise whatever Python
value sits at `["choices"][0]["message"]["content"]`. -/
def ask_perplexity (o : HttpOutcome) (question : String) : List Ev × PyVal :=
  ([Ev.remoteAsk question],
    match o with
    | .netError => .pyStr apologyAsk
    | .resp status body =>
      if raise_for_status status then .pyStr apologyAsk
      else
        match body with
        | none => .pyStr apologyAsk
        | some j =>
          match firstCandidate j with
          | none => .pyStr apologyAsk
          | some v => pyOfJson v)

/-- `startsWithL`-based substring test (Python `pat in s`). -/
def containsL (pat : List Char) : List Char → Bool
  | [] => startsWithL pat []
  | c :: cs => startsWithL pat (c :: cs) || containsL pat cs

def containsStr (pat s : String) : Bool := containsL pat.data s.data

def chatSystemCreate : String :=
  "Ты — опытный юрист-документовед, специализирующийся на создании юридических документов по российскому праву.\n\nКРИТИЧЕСКИ ВАЖНО для создания документов:\n- Создавай ПОЛНЫЕ, готовые к использованию документы\n- Используй корректную юридическую терминологию РФ\n- Включай все обязательные реквизиты и разделы\n- Структурируй документы логично с нумерацией\n- Добавляй поля для заполнения (ФИО, даты, адреса)\n- Соблюдай действующее законодательство РФ\n- Указывай ссылки на законы где уместно\n- Добавляй места для подписей и печатей\n\nКРИТИЧЕСКИ ВАЖНО ДЛЯ ФОРМАТИРОВАНИЯ:\n- НЕ используй markdown-разметку (никаких #, **, _, и т.д.)\n- НЕ используй символы # для заголовков\n- НЕ используй ** для выделения жирным\n- Просто пиши обычный текст без специальных символов\n- Заголовки пиши заглавными буквами\n- Для выделения используй только заглавные буквы или отступы\n\nРаботай только с юридическими документами РФ."

def chatSystemAnalyze : String :=
  "Ты — профессиональный юрист, специализирующийся на анализе юридических документов по российскому праву. Работай только с юридическими документами. Если документ не связан с правовыми вопросами, вежливо откажись его обрабатывать и предложи прислать юридический документ."

/-- `ask_chatgpt(prompt, document_content)`: builds the full prompt, selects
the system directive, emits the remote call; never raises — the apology
string replaces any exception, and the SDK content (`None` possible) is
passed through otherwise. -/
def ask_chatgpt (b : ChatOutcome) (prompt document_content : String) :
    List Ev × PyVal :=
  let full_prompt :=
    if document_content == "" then prompt
    else prompt ++ "\n\nДокумент для обработки:\n" ++ document_content
  let system_content :=
    if containsStr "документовед" prompt || containsStr "Создай" prompt then
      chatSystemCreate
    else chatSystemAnalyze
  ([Ev.remoteDoc system_content full_prompt document_content],
    match b with
    | .raiseErr => .pyStr apologyDoc
    | .ok none => .pyNone
    | .ok (some s) => .pyStr s)

/-! ## Session data, messages, helpers -/

/-- The per-user `context.user_data` dictionary. -/
structure UserData where
  waiting_for : Option String
  create_instructions : Option String
deriving DecidableEq, Repr

def emptyUD : UserData := ⟨none, none⟩

-- User-facing message constants (HTML attribute quoting of the link is
-- elided; no claim inspects the inner text of these messages).
def qLimitMsg : String :=
  "⛔ Вы достигли дневного лимита вопросов (10 в день).\n\n💡 <b>Что можно сделать:</b>\n• Обратиться завтра — лимит обнулится\n• Воспользоваться полной версией на <a href=https://pocket-consultant.ru>pocket-consultant.ru</a>"

def docLimitCreateMsg : String :=
  "⛔ Вы достигли дневного лимита операций с документами (10 в день).\n\n💡 <b>Что можно сделать:</b>\n• Обратиться завтра — лимит обнулится\n• Воспользоваться полной версией на <a href=https://pocket-consultant.ru>pocket-consultant.ru</a>"

def docLimitAnalyzeMsg : String :=
  "⛔ Вы достигли дневного лимита обработки документов (10 в день).\n\n💡 <b>Что можно сделать:</b>\n• Обратиться завтра — лимит обнулится\n• Воспользоваться полной версией на <a href=https://pocket-consultant.ru>pocket-consultant.ru</a>"

def createWaitMsg : String :=
  "⏳ Создаю документ по вашим требованиям...\nЭто может занять до 30 секунд."

def qWaitMsg : String :=
  "⏳ Подождите, пожалуйста, анализирую ваш запрос...\nЭто может занять до 20 секунд."

def docWaitMsg : String :=
  "⏳ Подождите, пожалуйста, анализирую документ...\nЭто может занять до 30 секунд."

def warnSuffixQ : String :=
  "\n\n⚠️ <b>Важно:</b> Это информационная консультация. Для принятия юридических решений обязательно проконсультируйтесь с квалифицированным юристом.\n\n🌟 Полная профессиональная версия доступна на <a href=https://pocket-consultant.ru>pocket-consultant.ru</a>"

def docHeader : String := "📄 <b>Анализ документа:</b>\n\n"

def warnSuffixDoc : String :=
  "\n\n⚠️ <b>Важно:</b> Это автоматический анализ. Для принятия юридических решений обязательно проконсультируйтесь с квалифицированным юристом.\n\n🌟 Полная профессиональная версия доступна на <a href=https://pocket-consultant.ru>pocket-consultant.ru</a>"

def createErrMsg : String :=
  "❌ <b>Ошибка при создании документа</b>\n\nНе удалось создать документ. Попробуйте:\n• Переформулировать запрос более подробно\n• Указать конкретный тип документа\n• Обратиться позже\n\n💡 Если проблема повторяется, свяжитесь с поддержкой."

def docErrMsg : String :=
  "❌ <b>Ошибка при обработке документа</b>\n\nНе удалось проанализировать документ. Возможные причины:\n• Документ поврежден или не содержит текст\n• Временная техническая проблема\n\n💡 Попробуйте повторить попытку позже."

def tooBigMsg : String := "❌ Файл слишком большой. Максимальный размер: 20 МБ"

def badFmtMsg : String :=
  "❌ Неподдерживаемый формат файла. Поддерживаются: .txt, .docx, .pdf"

def menuMsg : String := "Выберите следующее действие:"

def chooseFirstMsgDoc : String :=
  "Для анализа документов сначала выберите соответствующее действие:"

def noContextMsg : String := "Для начала работы выберите нужное действие:"

def docCaption : String :=
  "✅ <b>Документ создан успешно!</b>\n\n📄 Готовый юридический документ в формате Word\n\n⚠️ <b>Важно:</b> Обязательно проверьте и адаптируйте документ под вашу конкретную ситуацию. Перед использованием рекомендуется консультация с юристом.\n\n🌟 Полная профессиональная версия доступна на <a href=https://pocket-consultant.ru>pocket-consultant.ru</a>"

/-- The document-creation prompt built around the user instructions. -/
def createPrompt (text : String) : String :=
  "Ты опытный юрист-документовед. Создай юридический документ согласно требованиям пользователя.\n\nТРЕБОВАНИЯ ПОЛЬЗОВАТЕЛЯ: " ++ text ++
  "\n\nВАЖНЫЕ ТРЕБОВАНИЯ К СОЗДАНИЮ:\n1. Создай ПОЛНЫЙ юридический документ со всеми необходимыми реквизитами\n2. Используй корректную юридическую терминологию РФ\n3. Включи все обязательные разделы для данного типа документа\n4. Добавь необходимые поля для заполнения (ФИО, даты, адреса и т.д.)\n5. Соблюдай действующее законодательство РФ\n6. Структурируй документ логично с нумерацией пунктов\n7. Добавь места для подписей и печатей где требуется\n8. Укажи ссылки на соответствующие статьи законов где это уместно\n\nКРИТИЧЕСКИ ВАЖНО ДЛЯ ФОРМАТИРОВАНИЯ:\n- НЕ используй markdown-разметку (никаких #, **, _, и т.д.)\n- НЕ используй символы # для заголовков\n- НЕ используй ** для выделения жирным\n- Просто пиши обычный текст без специальных символов\n- Заголовки пиши заглавными буквами\n- Для выделения используй только заглавные буквы или отступы\n\nСТРУКТУРА ОТВЕТА:\n- Заголовок документа (заглавными буквами)\n- Все необходимые реквизиты\n- Основной текст с пронумерованными пунктами\n- Заключительная часть\n- Места для подписей\n\nСоздай готовый к использованию документ БЕЗ markdown-разметки:"

def analyzePrompt : String :=
  "Проанализируй этот юридический документ. Выдели основные пункты, возможные риски и рекомендации."

/-- Python `str.lower()` restricted to the alphabets appearing here
(ASCII and Cyrillic). -/
def pyLowerChar (c : Char) : Char :=
  if 'A' ≤ c && c ≤ 'Z' then Char.ofNat (c.toNat + 32)
  else if 'А' ≤ c && c ≤ 'Я' then Char.ofNat (c.toNat + 32)
  else if c == 'Ё' then 'ё'
  else c

def pyLower (s : String) : String := String.mk (s.data.map pyLowerChar)

/-- Output filename stem chosen from keywords of the user request. -/
def docTypeName (text : String) : String :=
  let lower := pyLower text
  if containsStr "договор" lower then "договор"
  else if containsStr "заявление" lower then "заявление"
  else if containsStr "претензия" lower then "претензия"
  else if containsStr "доверенность" lower then "доверенность"
  else if containsStr "уведомление" lower then "уведомление"
  else "документ"

/-- `[final[i:i+4000] for i in range(0, len(final), 4000)]`. -/
def chunksGo : Nat → List Char → List (List Char)
  | _, [] => []
  | 0, l => [l]
  | f + 1, l => l.take 4000 :: chunksGo f (l.drop 4000)

def chunks4000 (s : String) : List String :=
  (chunksGo s.data.length s.data).map String.mk

/-- Reply delivery: one message, or 4000-character parts when too long. -/
def sendChunked (s : String) : List Ev :=
  if 4000 < s.data.length then (chunks4000 s).map Ev.sendText
  else [Ev.sendText s]

/-- Lower-cased extension from `os.path.splitext(name)[1].lower()`. -/
def splitextLowerExt (name : String) : String :=
  let base := (name.data.reverse.takeWhile (fun c => !(c == '/'))).reverse
  let r := base.reverse
  let pre := r.takeWhile (fun c => !(c == '.'))
  if pre.length == r.length then ""
  else
    let before := r.drop (pre.length + 1)
    if before.any (fun c => !(c == '.')) then
      String.mk (('.' :: pre.reverse).map pyLowerChar)
    else ""

def extractErrMsg (ext : String) : String :=
  "Ошибка при извлечении текста из файла формата " ++ ext ++ "."

/-- `extract_text_from_file`: the per-format readers (utf-8 decode, PyPDF2
page loop, python-docx paragraph loop) are external adapters, modeled by
their outcome — the extracted text, or an exception.  The surrounding
`try/except` turns any exception into a fixed error-message string; an
unsupported extension yields its own fixed string without consulting the
adapter. -/
def extract_text_from_file (ext : String) (adapter : Except Unit String) : String :=
  if ext == ".txt" || ext == ".pdf" || ext == ".docx" then
    match adapter with
    | .ok t => t
    | .error _ => extractErrMsg ext
  else "Неподдерживаемый формат файла."

/-- The busy-indicator segment of one guarded block: the `keep_typing`
emissions that happen while the block runs, the effects `mid` of the block
itself, and then the `finally` cancellation and the completed
`await typing_task`.  Cancellation and await run on every exit path of the
block, so every trace below threads its guarded effects through this
segment. -/
def busySeg (n : Nat) (mid : List Ev) : List Ev :=
  List.replicate n Ev.tick ++ mid ++ [Ev.cancelTask, Ev.awaitedTask]

/-! ## The two flow handlers -/

/-- Result of one handler invocation: the effect trace, the user quota
record afterwards, whether the quota record was looked up at all (Python
creates the dictionary entry lazily inside `get_user_limits`), the
`user_data` afterwards, and whether the handler finished normally
(`ok = false`: an exception escaped to the application error handler). -/
structure HOut where
  trace : List Ev
  limits : UserLimits
  touched : Bool
  ud : UserData
  ok : Bool
deriving DecidableEq

/-- `handle_message`: the `create_instructions` and `question` flows plus
the no-context fallback.  `n` is the number of `keep_typing` emissions that
happen while the guarded block is running; `buildOk` is the behavior of the
docx construction adapter. -/
def handle_message (today : Nat) (lim : UserLimits) (ud : UserData)
    (text : String) (po : HttpOutcome) (co : ChatOutcome) (buildOk : Bool)
    (n : Nat) : HOut :=
  if ud.waiting_for == some "create_instructions" then
    let ud1 : UserData := { ud with create_instructions := some text }
    let lim1 := (can_process_document today lim).2
    if !(can_process_document today lim).1 then
      ⟨[Ev.logAction "create_instructions" text, Ev.sendText docLimitCreateMsg],
        lim1, true, ud1, true⟩
    else
      let askEvs := (ask_chatgpt co (createPrompt text) "").1
      let resp := (ask_chatgpt co (createPrompt text) "").2
      let lim2 := increment_documents today lim1
      let pre := [Ev.logAction "create_instructions" text, Ev.chatAction,
                  Ev.sendWaiting createWaitMsg]
      match resp with
      | .pyStr s =>
        if s == "" then
          ⟨pre ++ busySeg n (askEvs ++ [Ev.save]) ++
              [Ev.deleteWaitingMsg, Ev.sendText createErrMsg],
            lim2, true, ud1, true⟩
        else if buildOk then
          ⟨pre ++ busySeg n (askEvs ++ [Ev.save]) ++
              [Ev.deleteWaitingMsg,
               Ev.sendDocument (docTypeName text ++ ".docx") s docCaption,
               Ev.sendText menuMsg],
            lim2, true, emptyUD, true⟩
        else
          ⟨pre ++ busySeg n (askEvs ++ [Ev.save]) ++
              [Ev.deleteWaitingMsg, Ev.sendText createErrMsg],
            lim2, true, ud1, true⟩
      | _ =>
        ⟨pre ++ busySeg n (askEvs ++ [Ev.save]) ++
            [Ev.deleteWaitingMsg, Ev.sendText createErrMsg],
          lim2, true, ud1, true⟩
  else if ud.waiting_for == some "question" then
    let lim1 := (can_ask_question today lim).2
    if !(can_ask_question today lim).1 then
      ⟨[Ev.sendText qLimitMsg], lim1, true, ud, true⟩
    else
      let askEvs := (ask_perplexity po text).1
      let answer := (ask_perplexity po text).2
      let lim2 := increment_questions today lim1
      let pre := [Ev.logAction "ask_question" text, Ev.chatAction,
                  Ev.sendWaiting qWaitMsg]
      match answer with
      | .pyStr s =>
        let final := markdown_to_html s ++ warnSuffixQ
        ⟨pre ++ busySeg n askEvs ++
            (Ev.deleteWaitingMsg :: Ev.save ::
              (sendChunked final ++ [Ev.sendText menuMsg])),
          lim2, true, ud, true⟩
      | _ =>
        -- `markdown_to_html(None)` raises `TypeError`; nothing catches it here.
        ⟨pre ++ busySeg n askEvs ++ [Ev.deleteWaitingMsg, Ev.save],
          lim2, true, ud, false⟩
  else ⟨[Ev.sendText noContextMsg], lim, false, ud, true⟩

/-- `handle_document` (the analyze-upload flow). -/
def handle_document (today : Nat) (lim : UserLimits) (ud : UserData)
    (fname : String) (fsize : Nat) (adapter : Except Unit String)
    (co : ChatOutcome) (n : Nat) : HOut :=
  if !(ud.waiting_for == some "analyze_document") then
    ⟨[Ev.sendText chooseFirstMsgDoc], lim, false, ud, true⟩
  else
    let lim1 := (can_process_document today lim).2
    if !(can_process_document today lim).1 then
      ⟨[Ev.sendText docLimitAnalyzeMsg], lim1, true, ud, true⟩
    else if 20 * 1024 * 1024 < fsize then
      ⟨[Ev.sendText tooBigMsg], lim1, true, ud, true⟩
    else
      let ext := splitextLowerExt fname
      if !([".txt", ".docx", ".pdf"].contains ext) then
        ⟨[Ev.sendText badFmtMsg], lim1, true, ud, true⟩
      else
        let pre0 := [Ev.logAction "analyze_document_file" fname, Ev.chatAction,
                     Ev.sendWaiting docWaitMsg]
        let document_text := extract_text_from_file ext adapter
        if document_text == "" || (pyStrip document_text.data).length < 10 then
          -- the `raise` runs the `finally` and then escapes the handler:
          -- the formatting block below it never executes.
          ⟨pre0 ++ busySeg n [Ev.getFile] ++ [Ev.deleteWaitingMsg],
            lim1, true, ud, false⟩
        else
          let askEvs :=
            (ask_chatgpt co analyzePrompt (String.mk (document_text.data.take 8000))).1
          let resp :=
            (ask_chatgpt co analyzePrompt (String.mk (document_text.data.take 8000))).2
          let lim2 := increment_documents today lim1
          match resp with
          | .pyStr s =>
            let final := docHeader ++ markdown_to_html s ++ warnSuffixDoc
            ⟨pre0 ++ busySeg n (Ev.getFile :: askEvs ++ [Ev.save]) ++
                (Ev.deleteWaitingMsg ::
                  (sendChunked final ++ [Ev.sendText menuMsg])),
              lim2, true, emptyUD, true⟩
          | _ =>
            ⟨pre0 ++ busySeg n (Ev.getFile :: askEvs ++ [Ev.save]) ++
                [Ev.deleteWaitingMsg, Ev.sendText docErrMsg],
              lim2, true, ud, true⟩

/-! ## Global state and event loop (for reachability invariants) -/

/-- `button_handler`: mode selection mutates only `user_data`. -/
def button_update (data : String) (ud : UserData) : UserData :=
  if data == "ask_question" then { ud with waiting_for := some "question" }
  else if data == "analyze_document" then { ud with waiting_for := some "analyze_document" }
  else if data == "create_document" then { ud with waiting_for := some "create_instructions" }
  else if data == "back_to_main" then emptyUD
  else ud

structure GState where
  userLimits : Nat → Option UserLimits
  sessions : Nat → UserData

/-- `get_user_limits`: lazy creation with zero counters anchored today. -/
def get_user_limits (today uid : Nat) (g : GState) : UserLimits :=
  match g.userLimits uid with
  | some l => l
  | none => ⟨0, 0, today⟩

/-- One inbound chat event together with the behavior of the external world
while it is handled. -/
inductive Event where
  | msg (uid : Nat) (text : String) (today : Nat) (po : HttpOutcome)
      (co : ChatOutcome) (buildOk : Bool) (n : Nat)
  | doc (uid : Nat) (fname : String) (fsize : Nat) (today : Nat)
      (adapter : Except Unit String) (co : ChatOutcome) (n : Nat)
  | button (uid : Nat) (data : String)
  | startCmd (uid : Nat)

def updFn {α : Type} (f : Nat → α) (k : Nat) (v : α) : Nat → α :=
  fun x => if x == k then v else f x

def step (g : GState) : Event → GState
  | .msg uid text today po co b n =>
    let out := handle_message today (get_user_limits today uid g)
      (g.sessions uid) text po co b n
    ⟨if out.touched then updFn g.userLimits uid (some out.limits) else g.userLimits,
      updFn g.sessions uid out.ud⟩
  | .doc uid fname fsize today adapter co n =>
    let out := handle_document today (get_user_limits today uid g)
      (g.sessions uid) fname fsize adapter co n
    ⟨if out.touched then updFn g.userLimits uid (some out.limits) else g.userLimits,
      updFn g.sessions uid out.ud⟩
  | .button uid data =>
    ⟨g.userLimits, updFn g.sessions uid (button_update data (g.sessions uid))⟩
  | .startCmd _ => g

def initState : GState := ⟨fun _ => none, fun _ => emptyUD⟩

def run (evs : List Event) : GState := evs.foldl step initState

/-! ## Trace predicates and invariants used by the claims -/

def isTick : Ev → Bool
  | .tick => true
  | _ => false

def isRemote : Ev → Bool
  | .remoteAsk _ => true
  | .remoteDoc _ _ _ => true
  | _ => false

/-- Discipline of the `keep_typing` background task in one handler trace:
either the flow never started the task (and performed no remote call), or
the trace splits around one `cancel`/`awaited-termination` pair such that
everything before it contains neither of the pair, and after it no typing
signal and no remote call ever occurs — the remaining handler effects all
lie behind the completed `await`. -/
def busyDiscipline (tr : List Ev) : Prop :=
  tr.all (fun e => !(isTick e) && !(isRemote e) && !(e == Ev.cancelTask)) = true ∨
  ∃ pre post, tr = pre ++ Ev.cancelTask :: Ev.awaitedTask :: post ∧
    pre.all (fun e => !(e == Ev.awaitedTask) && !(e == Ev.cancelTask)) = true ∧
    post.all (fun e => !(isTick e) && !(isRemote e)) = true

/-- The chat texts sent to the user by a trace, in order. -/
def sentTexts (tr : List Ev) : List String :=
  tr.filterMap fun e =>
    match e with
    | .sendText m => some m
    | _ => none

/-- The quota invariant over the global state: every materialized record
respects both daily limits. -/
def QuotaInv (g : GState) : Prop :=
  ∀ uid l, g.userLimits uid = some l →
    l.questions_count ≤ DAILY_QUESTION_LIMIT ∧
    l.documents_count ≤ DAILY_DOCUMENT_LIMIT

/-- A well-formed backend body whose first candidate content is JSON `null`
(a perfectly legal completion body). -/
def nullBody : Json :=
  .obj [("choices", .arr [.obj [("message", .obj [("content", Json.null)])]])]

/-- A sample generated document text. -/
def sampleDocText : String :=
  "ДОГОВОР АРЕНДЫ КВАРТИРЫ\n\n1. ПРЕДМЕТ ДОГОВОРА\nАрендодатель передает Арендатору квартиру во временное пользование."

/-! Predicates for the normalizer analysis. -/

def allWS (l : List Char) : Bool := l.all isWS

/-- Scanner deciding that every maximal whitespace run of the text contains
at most two newlines (the fixed-point condition of the blank-line rule);
`p` accumulates the current whitespace run. -/
def runsOKgo : List Char → List Char → Bool
  | p, [] => decide (countNL p ≤ 2)
  | p, c :: cs =>
    if isWS c then runsOKgo (c :: p) cs
    else decide (countNL p ≤ 2) && runsOKgo [] cs

def runsOK (s : List Char) : Bool := runsOKgo [] s

/-- No two adjacent space/tab characters (fixed-point condition of the
space-collapsing rule, together with the absence of tabs). -/
def noAdjST : List Char → Bool
  | c :: d :: t => !(isST c && isST d) && noAdjST (d :: t)
  | _ => true

/-- Characters that can trigger one of the markup rewrite rules. -/
def isTrig (c : Char) : Bool :=
  c == '*' || c == '`' || c == '#' || c == '[' || c == ']' || c == '(' || c == ')'

def trigFree (l : List Char) : Bool := l.all fun c => !(isTrig c)

/-! ## Helper lemmas -/

theorem reset_reset (t : Nat) (u : UserLimits) :
    reset_if_needed t (reset_if_needed t u) = reset_if_needed t u := by
  by_cases h : u.last_reset < t <;> simp [reset_if_needed, h]

theorem increment_documents_reset (t : Nat) (u : UserLimits) :
    increment_documents t (reset_if_needed t u) =
      { reset_if_needed t u with
          documents_count := (reset_if_needed t u).documents_count + 1 } := by
  simp [increment_documents, reset_reset]

theorem increment_questions_reset (t : Nat) (u : UserLimits) :
    increment_questions t (reset_if_needed t u) =
      { reset_if_needed t u with
          questions_count := (reset_if_needed t u).questions_count + 1 } := by
  simp [increment_questions, reset_reset]

theorem reset_bounds (t : Nat) (u : UserLimits)
    (hq : u.questions_count ≤ 10) (hd : u.documents_count ≤ 10) :
    (reset_if_needed t u).questions_count ≤ 10 ∧
    (reset_if_needed t u).documents_count ≤ 10 := by
  unfold reset_if_needed; split <;> simp_all

theorem inc_q_reset (t : Nat) (u : UserLimits) :
    increment_questions t (reset_if_needed t u) = increment_questions t u := by
  simp [increment_questions, reset_reset]

theorem inc_d_reset (t : Nat) (u : UserLimits) :
    increment_documents t (reset_if_needed t u) = increment_documents t u := by
  simp [increment_documents, reset_reset]

/-- Both handlers increment a counter at most once and only behind the
corresponding strict gate, so the output record stays within the limits. -/
theorem handle_message_bounds (today : Nat) (lim : UserLimits) (ud : UserData)
    (text : String) (po : HttpOutcome) (co : ChatOutcome) (b : Bool) (n : Nat)
    (hq : lim.questions_count ≤ 10) (hd : lim.documents_count ≤ 10) :
    (handle_message today lim ud text po co b n).limits.questions_count ≤ 10 ∧
    (handle_message today lim ud text po co b n).limits.documents_count ≤ 10 := by
  have hr := reset_bounds today lim hq hd
  simp only [handle_message]
  split
  · -- create-instructions flow
    split
    · simpa [can_process_document] using hr
    · rename_i hgate
      have hlt : (reset_if_needed today lim).documents_count < 10 := by
        simpa [can_process_document, DAILY_DOCUMENT_LIMIT] using hgate
      have hP : (increment_documents today (can_process_document today lim).2).questions_count ≤ 10 ∧
          (increment_documents today (can_process_document today lim).2).documents_count ≤ 10 := by
        simp only [can_process_document]
        simp [increment_documents, reset_reset]
        omega
      split
      · split
        · exact hP
        · split
          · exact hP
          · exact hP
      · exact hP
  · split
    · -- question flow
      split
      · simpa [can_ask_question] using hr
      · rename_i hgate
        have hlt : (reset_if_needed today lim).questions_count < 10 := by
          simpa [can_ask_question, DAILY_QUESTION_LIMIT] using hgate
        have hP : (increment_questions today (can_ask_question today lim).2).questions_count ≤ 10 ∧
            (increment_questions today (can_ask_question today lim).2).documents_count ≤ 10 := by
          simp only [can_ask_question]
          simp [increment_questions, reset_reset]
          omega
        split
        · exact hP
        · exact hP
    · exact ⟨hq, hd⟩

theorem handle_document_bounds (today : Nat) (lim : UserLimits) (ud : UserData)
    (fname : String) (fsize : Nat) (adapter : Except Unit String)
    (co : ChatOutcome) (n : Nat)
    (hq : lim.questions_count ≤ 10) (hd : lim.documents_count ≤ 10) :
    (handle_document today lim ud fname fsize adapter co n).limits.questions_count ≤ 10 ∧
    (handle_document today lim ud fname fsize adapter co n).limits.documents_count ≤ 10 := by
  have hr := reset_bounds today lim hq hd
  have hr2 : ((can_process_document today lim).2).questions_count ≤ 10 ∧
      ((can_process_document today lim).2).documents_count ≤ 10 := by
    simpa [can_process_document] using hr
  simp only [handle_document]
  split
  · exact ⟨hq, hd⟩
  · split
    · exact hr2
    · split
      · exact hr2
      · split
        · exact hr2
        · split
          · exact hr2
          · rename_i hgate _ _ _
            have hlt : (reset_if_needed today lim).documents_count < 10 := by
              simpa [can_process_document, DAILY_DOCUMENT_LIMIT] using hgate
            have hP : (increment_documents today (can_process_document today lim).2).questions_count ≤ 10 ∧
                (increment_documents today (can_process_document today lim).2).documents_count ≤ 10 := by
              simp only [can_process_document]
              simp [increment_documents, reset_reset]
              omega
            split
            · exact hP
            · exact hP

theorem step_preserves (g : GState) (e : Event) (h : QuotaInv g) :
    QuotaInv (step g e) := by
  have hin : ∀ today uid, (get_user_limits today uid g).questions_count ≤ 10 ∧
      (get_user_limits today uid g).documents_count ≤ 10 := by
    intro today uid
    unfold get_user_limits
    cases hg : g.userLimits uid with
    | none => simp
    | some l0 =>
      simpa [DAILY_QUESTION_LIMIT, DAILY_DOCUMENT_LIMIT] using h uid l0 hg
  cases e with
  | msg uid text today po co b n =>
    intro u l hl
    simp only [step] at hl
    by_cases ht : (handle_message today (get_user_limits today uid g)
        (g.sessions uid) text po co b n).touched
    · rw [if_pos ht] at hl
      by_cases hu : u = uid
      · rw [hu] at hl
        simp only [updFn, beq_self_eq_true, if_true, Option.some.injEq] at hl
        cases hl
        have hb := handle_message_bounds today (get_user_limits today uid g)
          (g.sessions uid) text po co b n (hin today uid).1 (hin today uid).2
        simpa [DAILY_QUESTION_LIMIT, DAILY_DOCUMENT_LIMIT] using hb
      · simp only [updFn] at hl
        rw [if_neg (by simpa using hu)] at hl
        exact h u l hl
    · rw [if_neg ht] at hl
      exact h u l hl
  | doc uid fname fsize today adapter co n =>
    intro u l hl
    simp only [step] at hl
    by_cases ht : (handle_document today (get_user_limits today uid g)
        (g.sessions uid) fname fsize adapter co n).touched
    · rw [if_pos ht] at hl
      by_cases hu : u = uid
      · rw [hu] at hl
        simp only [updFn, beq_self_eq_true, if_true, Option.some.injEq] at hl
        cases hl
        have hb := handle_document_bounds today (get_user_limits today uid g)
          (g.sessions uid) fname fsize adapter co n (hin today uid).1 (hin today uid).2
        simpa [DAILY_QUESTION_LIMIT, DAILY_DOCUMENT_LIMIT] using hb
      · simp only [updFn] at hl
        rw [if_neg (by simpa using hu)] at hl
        exact h u l hl
    · rw [if_neg ht] at hl
      exact h u l hl
  | button uid data =>
    intro u l hl
    simp only [step] at hl
    exact h u l hl
  | startCmd uid =>
    intro u l hl
    exact h u l hl

theorem run_inv_aux (evs : List Event) :
    ∀ g, QuotaInv g → QuotaInv (evs.foldl step g) := by
  induction evs with
  | nil => intro g h; exact h
  | cons e evs ih => intro g h; exact ih _ (step_preserves g e h)

/-! ## Claim C9 -/

/-- C9: in every state reachable by any sequence of handled events, every
materialized quota record satisfies `questions_used ≤ 10` and
`documents_used ≤ 10`. -/
theorem C9_counters_bounded (evs : List Event) : QuotaInv (run evs) := by
  have hinit : QuotaInv initState := by
    intro u l hl
    simp [initState] at hl
  exact run_inv_aux evs initState hinit

/-- C9 witness: the invariant holds after a concrete event sequence that
uses a question and a document on the same day. -/
theorem C9_counters_bounded_w :
    QuotaInv (run [Event.button 7 "ask_question",
      Event.msg 7 "вопрос" 1 .netError .raiseErr true 0]) :=
  C9_counters_bounded _

/-! ## Claim C2 -/

/-- C2: `can_ask_question`/`can_process_document` return `false` exactly when
the post-rollover counter for the current day has reached the limit 10, and
are `true` again on the first call of a later day regardless of the stored
counters, because both accessors reset before comparing. -/
theorem C2_quota_gates (u : UserLimits) (today : Nat) :
    ((can_ask_question today u).1 = false ↔
      DAILY_QUESTION_LIMIT ≤ (reset_if_needed today u).questions_count) ∧
    ((can_process_document today u).1 = false ↔
      DAILY_DOCUMENT_LIMIT ≤ (reset_if_needed today u).documents_count) ∧
    (u.last_reset < today →
      (can_ask_question today u).1 = true ∧
      (can_process_document today u).1 = true) := by
  refine ⟨?_, ?_, fun h => ?_⟩
  · simp [can_ask_question, DAILY_QUESTION_LIMIT, Nat.not_lt]
  · simp [can_process_document, DAILY_DOCUMENT_LIMIT, Nat.not_lt]
  · simp [can_ask_question, can_process_document, reset_if_needed, h,
      DAILY_QUESTION_LIMIT, DAILY_DOCUMENT_LIMIT]

/-- C2 witness: a user who exhausted both counters yesterday passes both
gates today. -/
theorem C2_quota_gates_w :
    (0 : Nat) < 1 ∧ (can_ask_question 1 ⟨10, 10, 0⟩).1 = true ∧
      (can_process_document 1 ⟨10, 10, 0⟩).1 = true := by
  have h := (C2_quota_gates ⟨10, 10, 0⟩ 1).2.2 (by decide)
  exact ⟨by decide, h.1, h.2⟩

/-! ## Claim C5 -/

/-- C5: evaluation of the analyze flow at a too-short extracted text
(`"hi"`, 2 characters) — the gate and validation reject it before any remote
call, but the raised exception escapes the handler: the trace contains no
`sendText` at all (no user-visible rejection message), the session is left
in the awaiting-upload state, the handler ends abnormally. -/
theorem C5_short_text_escapes :
    handle_document 5 ⟨0, 0, 5⟩ ⟨some "analyze_document", none⟩ "a.txt" 2
        (.ok "hi") (.ok (some "ответ")) 0 =
      ⟨[Ev.logAction "analyze_document_file" "a.txt", Ev.chatAction,
        Ev.sendWaiting docWaitMsg, Ev.getFile, Ev.cancelTask, Ev.awaitedTask,
        Ev.deleteWaitingMsg], ⟨0, 0, 5⟩, true, ⟨some "analyze_document", none⟩,
        false⟩ := by decide

/-! ## Claim C6 -/

/-- C6 counterexample: a 200 response whose well-formed body carries
`"content": null` makes `ask_perplexity` return Python `None` — neither a
candidate text nor the apology string, so the call does not always return a
string. -/
theorem C6_null_candidate_not_string :
    isPyStr (ask_perplexity (.resp 200 (some nullBody)) "вопрос").2 = false := by
  decide

/-- C6 amended: both gateway calls are total (never raise to their caller).
They return the fixed apology string on every raising failure (network
error, HTTP error status, non-JSON body, missing or ill-typed fields), and
otherwise pass through the first candidate content — which is the candidate
text whenever the backend supplies a string, but is `None`/a non-string
value when the backend supplies `null` or another JSON type. -/
theorem C6_gateway_never_raises :
    (∀ o q, (ask_perplexity o q).2 = .pyStr apologyAsk ∨
      ∃ status j v, o = .resp status (some j) ∧ firstCandidate j = some v ∧
        (ask_perplexity o q).2 = pyOfJson v) ∧
    (∀ b p d, (ask_chatgpt b p d).2 = .pyStr apologyDoc ∨
      ∃ c, b = .ok c ∧ (ask_chatgpt b p d).2 =
        (match c with | some s => PyVal.pyStr s | none => PyVal.pyNone)) := by
  constructor
  · intro o q
    cases o with
    | netError => exact Or.inl rfl
    | resp status body =>
      cases hr : raise_for_status status with
      | true => exact Or.inl (by simp [ask_perplexity, hr])
      | false =>
        cases body with
        | none => exact Or.inl (by simp [ask_perplexity, hr])
        | some j =>
          cases hfc : firstCandidate j with
          | none => exact Or.inl (by simp [ask_perplexity, hr, hfc])
          | some v =>
            exact Or.inr ⟨status, j, v, rfl, hfc, by simp [ask_perplexity, hr, hfc]⟩
  · intro b p d
    cases b with
    | raiseErr => exact Or.inl rfl
    | ok c => exact Or.inr ⟨c, rfl, by cases c <;> rfl⟩

/-- C6 witness: a network failure yields the apology string. -/
theorem C6_gateway_never_raises_w :
    (ask_perplexity .netError "вопрос").2 = .pyStr apologyAsk := by
  rcases C6_gateway_never_raises.1 .netError "вопрос" with h | ⟨st, j, v, he, _, _⟩
  · exact h
  · simp at he

/-! ## Claim C7 -/

/-- C7: a user whose document counter is at 10/10 for the current day gets
exactly the quota message on an analyze-mode upload: no download, no remote
call, and the quota record is unchanged. -/
theorem C7_limit_blocks_upload (today : Nat) (lim : UserLimits) (ud : UserData)
    (fname : String) (fsize : Nat) (adapter : Except Unit String)
    (co : ChatOutcome) (n : Nat)
    (hw : ud.waiting_for = some "analyze_document")
    (hd : lim.documents_count = 10) (ha : lim.last_reset = today) :
    (handle_document today lim ud fname fsize adapter co n).trace =
        [Ev.sendText docLimitAnalyzeMsg] ∧
    (handle_document today lim ud fname fsize adapter co n).limits = lim ∧
    Ev.getFile ∉ (handle_document today lim ud fname fsize adapter co n).trace ∧
    (∀ sys p d, Ev.remoteDoc sys p d ∉
      (handle_document today lim ud fname fsize adapter co n).trace) := by
  have hreset : reset_if_needed today lim = lim := by
    simp [reset_if_needed, ha]
  have hcan : can_process_document today lim = (false, lim) := by
    simp [can_process_document, hreset, hd, DAILY_DOCUMENT_LIMIT]
  refine ⟨?_, ?_, ?_, ?_⟩ <;> simp [handle_document, hw, hcan]

/-- C7 witness. -/
theorem C7_limit_blocks_upload_w :
    (handle_document 3 ⟨0, 10, 3⟩ ⟨some "analyze_document", none⟩ "a.pdf" 5
        (.ok "текст договора") .raiseErr 2).trace =
      [Ev.sendText docLimitAnalyzeMsg] := by
  exact (C7_limit_blocks_upload 3 ⟨0, 10, 3⟩ ⟨some "analyze_document", none⟩
    "a.pdf" 5 (.ok "текст договора") .raiseErr 2 rfl rfl rfl).1

/-! ## Claim C8 -/

/-- C8: the normalizer removes every citation marker `[1]`–`[20]`; brackets
around other numbers are stripped by the generic rule leaving the number;
and the pinned rewrites hold exactly: bold → `<b>` emphasis, header →
emphasized title, and the citation sentence collapses its double spaces. -/
theorem C8_normalizer_cases :
    (∀ k ∈ List.range 20, markdown_to_html ("[" ++ toString (k + 1) ++ "]") = "") ∧
    markdown_to_html "[42]" = "42" ∧
    markdown_to_html "**bold**" = "<b>bold</b>" ∧
    markdown_to_html "# Title" = "<b>Title</b>" ∧
    markdown_to_html "See [1] and [2]" = "See and" := by decide

/-- C8 witness: marker 17 is removed. -/
theorem C8_normalizer_cases_w : markdown_to_html "[17]" = "" := by
  have h := C8_normalizer_cases.1 16 (by decide)
  have e : ("[" ++ toString (16 + 1 : Nat) ++ "]") = "[17]" := by decide
  rw [e] at h
  exact h

theorem all_pre_replicate (n : Nat) :
    (List.replicate n Ev.tick).all
      (fun e => !(e == Ev.awaitedTask) && !(e == Ev.cancelTask)) = true := by
  induction n with
  | zero => rfl
  | succ k ih => simp [List.replicate_succ, ih]

theorem postPred_sendChunked (s : String) (e : Ev) (he : e ∈ sendChunked s) :
    (!(isTick e) && !(isRemote e)) = true := by
  unfold sendChunked at he
  split at he
  · rcases List.mem_map.1 he with ⟨m, _, rfl⟩
    rfl
  · rcases List.mem_singleton.1 he with rfl
    rfl

theorem post_all_chunked1 (s : String) :
    (Ev.deleteWaitingMsg :: (sendChunked s ++ [Ev.sendText menuMsg])).all
      (fun e => !(isTick e) && !(isRemote e)) = true := by
  rw [List.all_eq_true]
  intro e he
  rcases List.mem_cons.1 he with rfl | he
  · rfl
  · rcases List.mem_append.1 he with he | he
    · exact postPred_sendChunked _ _ he
    · rcases List.mem_singleton.1 he with rfl
      rfl

theorem post_all_chunked2 (s : String) :
    (Ev.deleteWaitingMsg :: Ev.save ::
      (sendChunked s ++ [Ev.sendText menuMsg])).all
      (fun e => !(isTick e) && !(isRemote e)) = true := by
  rw [List.all_eq_true]
  intro e he
  rcases List.mem_cons.1 he with rfl | he
  · rfl
  · rcases List.mem_cons.1 he with rfl | he
    · rfl
    · rcases List.mem_append.1 he with he | he
      · exact postPred_sendChunked _ _ he
      · rcases List.mem_singleton.1 he with rfl
        rfl

/-- Standard shape of every busy-guarded flow trace: startup effects `a`,
then the busy segment (typing emissions, guarded-body effects `mid`, the
cancel/await pair of the `finally`), then the post-cleanup effects `c`. -/
theorem busyDiscipline_seg (a mid c : List Ev) (n : Nat)
    (ha : a.all (fun e => !(e == Ev.awaitedTask) && !(e == Ev.cancelTask)) = true)
    (hm : mid.all (fun e => !(e == Ev.awaitedTask) && !(e == Ev.cancelTask)) = true)
    (hc : c.all (fun e => !(isTick e) && !(isRemote e)) = true) :
    busyDiscipline (a ++ busySeg n mid ++ c) := by
  refine Or.inr ⟨a ++ List.replicate n Ev.tick ++ mid, c, ?_, ?_, hc⟩
  · simp [busySeg, List.append_assoc]
  · simp [List.all_append, ha, hm, all_pre_replicate]

/-! ## Claim C1 -/

/-- C1: in all three remote-call flows (question answering, document
analysis, document creation) and for every behavior of the environment, the
handler trace either never starts the busy task (early returns, which also
make no remote call), or splits around exactly one cancel/await pair: the
remote call and every typing emission happen before it, and after the
completed await no typing signal and no remote call occurs — all later
handler effects come after the task has fully terminated. -/
theorem C1_busy_indicator_cleanup :
    (∀ today lim ud text po co b n,
      busyDiscipline (handle_message today lim ud text po co b n).trace) ∧
    (∀ today lim ud fname fsize adapter co n,
      busyDiscipline (handle_document today lim ud fname fsize adapter co n).trace) := by
  constructor
  · intro today lim ud text po co b n
    simp only [handle_message]
    split
    · split
      · exact Or.inl rfl
      · split
        · split
          · refine busyDiscipline_seg _ _ _ _ ?_ ?_ ?_ <;> rfl
          · split
            · refine busyDiscipline_seg _ _ _ _ ?_ ?_ ?_ <;> rfl
            · refine busyDiscipline_seg _ _ _ _ ?_ ?_ ?_ <;> rfl
        · refine busyDiscipline_seg _ _ _ _ ?_ ?_ ?_ <;> rfl
    · split
      · split
        · exact Or.inl rfl
        · split
          · refine busyDiscipline_seg _ _ _ _ ?_ ?_ ?_
            · rfl
            · rfl
            · exact post_all_chunked2 _
          · refine busyDiscipline_seg _ _ _ _ ?_ ?_ ?_ <;> rfl
      · exact Or.inl rfl
  · intro today lim ud fname fsize adapter co n
    simp only [handle_document]
    split
    · exact Or.inl rfl
    · split
      · exact Or.inl rfl
      · split
        · exact Or.inl rfl
        · split
          · exact Or.inl rfl
          · split
            · refine busyDiscipline_seg _ _ _ _ ?_ ?_ ?_ <;> rfl
            · split
              · refine busyDiscipline_seg _ _ _ _ ?_ ?_ ?_
                · rfl
                · rfl
                · exact post_all_chunked1 _
              · refine busyDiscipline_seg _ _ _ _ ?_ ?_ ?_ <;> rfl

/-- C1 witness: the busy discipline on a concrete successful question flow. -/
theorem C1_busy_indicator_cleanup_w :
    busyDiscipline (handle_message 1 ⟨0, 0, 1⟩ ⟨some "question", none⟩ "вопрос"
      (.resp 200 (some nullBody)) .raiseErr true 2).trace :=
  C1_busy_indicator_cleanup.1 1 ⟨0, 0, 1⟩ ⟨some "question", none⟩ "вопрос"
    (.resp 200 (some nullBody)) .raiseErr true 2

/-! ## Claim C10 -/

/-- C10: when the extraction adapter raises on a supported extension, the
fixed extraction-error string (longer than 10 characters even after
trimming) becomes the document text: validation passes, the error string is
sent to the document backend verbatim as the document payload, and the
document counter is incremented and persisted. -/
theorem C10_extract_error_flows_to_backend (today : Nat) (lim : UserLimits)
    (ud : UserData) (fname : String) (fsize : Nat) (co : ChatOutcome) (n : Nat)
    (hw : ud.waiting_for = some "analyze_document")
    (hgate : (reset_if_needed today lim).documents_count < 10)
    (hsize : fsize ≤ 20 * 1024 * 1024)
    (hext : splitextLowerExt fname = ".txt" ∨ splitextLowerExt fname = ".pdf" ∨
      splitextLowerExt fname = ".docx") :
    extract_text_from_file (splitextLowerExt fname) (.error ()) =
        extractErrMsg (splitextLowerExt fname) ∧
    10 ≤ (pyStrip (extractErrMsg (splitextLowerExt fname)).data).length ∧
    Ev.remoteDoc chatSystemAnalyze
        (analyzePrompt ++ "\n\nДокумент для обработки:\n" ++
          extractErrMsg (splitextLowerExt fname))
        (extractErrMsg (splitextLowerExt fname))
      ∈ (handle_document today lim ud fname fsize (.error ()) co n).trace ∧
    (handle_document today lim ud fname fsize (.error ()) co n).limits.documents_count
      = (reset_if_needed today lim).documents_count + 1 ∧
    Ev.save ∈ (handle_document today lim ud fname fsize (.error ()) co n).trace := by
  have hno : ¬ (20 * 1024 * 1024 < fsize) := by omega
  have hcan : can_process_document today lim = (true, reset_if_needed today lim) := by
    simp [can_process_document, DAILY_DOCUMENT_LIMIT, hgate]
  have hc : (containsStr "документовед" analyzePrompt ||
      containsStr "Создай" analyzePrompt) = false := by decide
  rcases hext with he | he | he
  · have hne : (extractErrMsg ".txt" == "") = false := by decide
    have hlen : ¬ ((pyStrip (extractErrMsg ".txt").data).length < 10) := by decide
    have hlen2 : 10 ≤ (pyStrip (extractErrMsg ".txt").data).length := by decide
    have htake : String.mk ((extractErrMsg ".txt").data.take 8000) =
        extractErrMsg ".txt" := by decide
    rcases co with _ | c
    · simp [handle_document, hw, hcan, he, hno, extract_text_from_file,
        ask_chatgpt, increment_documents_reset, busySeg, hne, hlen, hlen2, htake, hc]
    · rcases c with _ | s <;>
        simp [handle_document, hw, hcan, he, hno, extract_text_from_file,
          ask_chatgpt, increment_documents_reset, busySeg, hne, hlen, hlen2, htake, hc]
  · have hne : (extractErrMsg ".pdf" == "") = false := by decide
    have hlen : ¬ ((pyStrip (extractErrMsg ".pdf").data).length < 10) := by decide
    have hlen2 : 10 ≤ (pyStrip (extractErrMsg ".pdf").data).length := by decide
    have htake : String.mk ((extractErrMsg ".pdf").data.take 8000) =
        extractErrMsg ".pdf" := by decide
    rcases co with _ | c
    · simp [handle_document, hw, hcan, he, hno, extract_text_from_file,
        ask_chatgpt, increment_documents_reset, busySeg, hne, hlen, hlen2, htake, hc]
    · rcases c with _ | s <;>
        simp [handle_document, hw, hcan, he, hno, extract_text_from_file,
          ask_chatgpt, increment_documents_reset, busySeg, hne, hlen, hlen2, htake, hc]
  · have hne : (extractErrMsg ".docx" == "") = false := by decide
    have hlen : ¬ ((pyStrip (extractErrMsg ".docx").data).length < 10) := by decide
    have hlen2 : 10 ≤ (pyStrip (extractErrMsg ".docx").data).length := by decide
    have htake : String.mk ((extractErrMsg ".docx").data.take 8000) =
        extractErrMsg ".docx" := by decide
    rcases co with _ | c
    · simp [handle_document, hw, hcan, he, hno, extract_text_from_file,
        ask_chatgpt, increment_documents_reset, busySeg, hne, hlen, hlen2, htake, hc]
    · rcases c with _ | s <;>
        simp [handle_document, hw, hcan, he, hno, extract_text_from_file,
          ask_chatgpt, increment_documents_reset, busySeg, hne, hlen, hlen2, htake, hc]

/-- C10 witness: a `.pdf` whose reader raises still reaches the backend and
burns one document credit. -/
theorem C10_extract_error_flows_to_backend_w :
    Ev.save ∈ (handle_document 2 ⟨0, 3, 2⟩ ⟨some "analyze_document", none⟩
      "скан.pdf" 1000 (.error ()) (.ok (some "анализ документа")) 1).trace :=
  (C10_extract_error_flows_to_backend 2 ⟨0, 3, 2⟩ ⟨some "analyze_document", none⟩
    "скан.pdf" 1000 (.ok (some "анализ документа")) 1 rfl (by decide) (by decide)
    (Or.inr (Or.inl (by decide)))).2.2.2.2

/-! ## Claim C4 -/

theorem filterMap_replicate_tick {β : Type} (f : Ev → Option β) (n : Nat)
    (hf : f Ev.tick = none) :
    List.filterMap f (List.replicate n Ev.tick) = [] := by
  induction n with
  | zero => rfl
  | succ k ih => simp [List.replicate_succ, List.filterMap_cons, hf, ih]

/-- C4 counterexample: with a generated document text and a failing docx
construction, the only chat text the create flow sends is the fixed error
notice, which does not contain the generated text — the content is not
delivered as chunked chat text (its single 4000-chunk is the text itself). -/
theorem C4_no_chunked_fallback_cx :
    sentTexts (handle_message 5 ⟨0, 0, 5⟩ ⟨some "create_instructions", none⟩
        "договор" .netError (.ok (some sampleDocText)) false 0).trace =
      [createErrMsg] ∧
    chunks4000 sampleDocText = [sampleDocText] ∧
    containsStr sampleDocText createErrMsg = false := by decide

/-- C4 amended: when docx construction fails in the create flow, the
handler sends exactly the fixed error notice (`"❌ Ошибка при создании
документа…"`) as chat text and no document at all — the generated content
is discarded rather than falling back to chunked plain-text delivery — and
the error branch returns before the session cleanup, so the stored state
still has `waiting_for = "create_instructions"` (the session is not reset
to the menu). -/
theorem C4_build_failure_drops_content (today : Nat) (lim : UserLimits)
    (ud : UserData) (text s : String) (po : HttpOutcome) (n : Nat)
    (hw : ud.waiting_for = some "create_instructions")
    (hgate : (reset_if_needed today lim).documents_count < 10)
    (hs : s ≠ "") :
    sentTexts (handle_message today lim ud text po (.ok (some s)) false n).trace =
      [createErrMsg] ∧
    (∀ f c cap, Ev.sendDocument f c cap ∉
      (handle_message today lim ud text po (.ok (some s)) false n).trace) ∧
    (handle_message today lim ud text po (.ok (some s)) false n).ud.waiting_for =
      some "create_instructions" := by
  have hcan : can_process_document today lim = (true, reset_if_needed today lim) := by
    simp [can_process_document, DAILY_DOCUMENT_LIMIT, hgate]
  have hsb : (s == "") = false := by
    simpa using hs
  refine ⟨?_, ?_, ?_⟩
  · simp [handle_message, hw, hcan, ask_chatgpt, hsb, busySeg, sentTexts,
      List.filterMap_append, filterMap_replicate_tick]
  · intro f c cap
    simp [handle_message, hw, hcan, ask_chatgpt, hsb, busySeg]
  · simp [handle_message, hw, hcan, ask_chatgpt, hsb]

/-! ## Claim C3 -/

/-- C3 counterexample: the normalizer is not idempotent.  A header marker
appearing again inside the same line survives the first pass (the capture
`(.*)` swallows it into the replacement) and is rewritten by a second pass. -/
theorem C3_not_idempotent_cx :
    markdown_to_html (markdown_to_html "# a # b") ≠ markdown_to_html "# a # b" := by
  decide

theorem startsWithL_head_false (d0 : Char) (dr : List Char) (c : Char)
    (cs : List Char) (h : c ≠ d0) : startsWithL (d0 :: dr) (c :: cs) = false := by
  have hb : (d0 == c) = false := beq_eq_false_iff_ne.mpr (Ne.symm h)
  simp [startsWithL, hb]

theorem subPairF_id (lt rt : List Char) (d0 : Char) (dr : List Char) :
    ∀ (f : Nat) (s : List Char), s.length ≤ f → d0 ∉ s →
      subPairF lt rt (d0 :: dr) f s = s := by
  intro f
  induction f with
  | zero =>
    intro s hl _
    cases s with
    | nil => rfl
    | cons c cs => simp at hl
  | succ k ih =>
    intro s hl hm
    cases s with
    | nil => rfl
    | cons c cs =>
      have hc : c ≠ d0 := fun he => hm (he ▸ List.mem_cons_self c cs)
      have hcs : d0 ∉ cs := fun hx => hm (List.mem_cons_of_mem c hx)
      simp only [subPairF, startsWithL_head_false d0 dr c cs hc,
        Bool.false_eq_true, if_false]
      have : cs.length ≤ k := by simpa using hl
      rw [ih cs this hcs]

theorem subHdrF_id (h0 : Char) (hr : List Char) :
    ∀ (f : Nat) (s : List Char), s.length ≤ f → h0 ∉ s →
      subHdrF (h0 :: hr) f s = s := by
  intro f
  induction f with
  | zero =>
    intro s hl _
    cases s with
    | nil => rfl
    | cons c cs => simp at hl
  | succ k ih =>
    intro s hl hm
    cases s with
    | nil => rfl
    | cons c cs =>
      have hc : c ≠ h0 := fun he => hm (he ▸ List.mem_cons_self c cs)
      have hcs : h0 ∉ cs := fun hx => hm (List.mem_cons_of_mem c hx)
      simp only [subHdrF, startsWithL_head_false h0 hr c cs hc,
        Bool.false_eq_true, if_false]
      have : cs.length ≤ k := by simpa using hl
      rw [ih cs this hcs]

theorem subCite_id : ∀ (s : List Char), '[' ∉ s → subCite s = s := by
  intro s
  induction s using subCite.induct with
  | case1 => intro _; rfl
  | case2 d rest hd ih =>
    intro hm
    exact absurd (List.mem_cons_self _ _) hm
  | case3 d rest hd ih =>
    intro hm
    exact absurd (List.mem_cons_self _ _) hm
  | case4 d rest hd ih =>
    intro hm
    exact absurd (List.mem_cons_self _ _) hm
  | case5 d rest hd ih =>
    intro hm
    exact absurd (List.mem_cons_self _ _) hm
  | case6 rest ih =>
    intro hm
    exact absurd (List.mem_cons_self _ _) hm
  | case7 c cs h1 h2 h3 ih =>
    intro hm
    have hcs : '[' ∉ cs := fun hx => hm (List.mem_cons_of_mem c hx)
    rw [subCite, ih hcs]
    · exact h1
    · exact h2
    · exact h3

theorem not_mem_of_trigFree (l : List Char) (h : trigFree l = true) (c : Char)
    (hc : isTrig c = true) : c ∉ l := by
  intro hm
  have h2 := List.all_eq_true.1 h c hm
  rw [hc] at h2
  simp at h2

theorem stripBrackets_id (l : List Char) (h : trigFree l = true) :
    stripBrackets l = l := by
  unfold stripBrackets
  rw [List.filter_eq_self]
  intro a ha
  have h3 : isTrig a = false := by simpa using List.all_eq_true.1 h a ha
  by_cases e1 : a = '['
  · exact absurd (e1 ▸ h3) (by decide)
  by_cases e2 : a = ']'
  · exact absurd (e2 ▸ h3) (by decide)
  by_cases e3 : a = '('
  · exact absurd (e3 ▸ h3) (by decide)
  by_cases e4 : a = ')'
  · exact absurd (e4 ▸ h3) (by decide)
  simp [beq_eq_false_iff_ne.mpr e1, beq_eq_false_iff_ne.mpr e2,
    beq_eq_false_iff_ne.mpr e3, beq_eq_false_iff_ne.mpr e4]

theorem subPair_id (lt rt d : List Char) (d0 : Char) (dr : List Char)
    (hd : d = d0 :: dr) (s : List Char) (hm : d0 ∉ s) : subPair lt rt d s = s := by
  subst hd
  exact subPairF_id lt rt d0 dr s.length s le_rfl hm

theorem subHdr_id (hh : List Char) (h0 : Char) (hr : List Char)
    (hd : hh = h0 :: hr) (s : List Char) (hm : h0 ∉ s) : subHdr hh s = s := by
  subst hd
  exact subHdrF_id h0 hr s.length s le_rfl hm

/-- On markup-free text the normalizer is exactly the whitespace
normalization `wnorm`. -/
theorem m2h_eq_wnorm (s : String) (h : trigFree s.data = true) :
    markdown_to_html s = String.mk (wnorm s.data) := by
  have hstar : '*' ∉ s.data := not_mem_of_trigFree _ h '*' (by decide)
  have htick : '`' ∉ s.data := not_mem_of_trigFree _ h '`' (by decide)
  have hhash : '#' ∉ s.data := not_mem_of_trigFree _ h '#' (by decide)
  have hbr : '[' ∉ s.data := not_mem_of_trigFree _ h '[' (by decide)
  simp only [markdown_to_html]
  rw [subPair_id "<b>".data "</b>".data "**".data '*' ['*'] rfl s.data hstar,
    subPair_id "<i>".data "</i>".data "*".data '*' [] rfl s.data hstar,
    subPair_id "<code>".data "</code>".data "`".data '`' [] rfl s.data htick,
    subHdr_id "###".data '#' "##".data rfl s.data hhash,
    subHdr_id "##".data '#' "#".data rfl s.data hhash,
    subHdr_id "#".data '#' [] rfl s.data hhash,
    subCite_id s.data hbr,
    stripBrackets_id s.data h]

theorem mem_of_mem_takeWhile {p : Char → Bool} {c : Char} :
    ∀ {l : List Char}, c ∈ l.takeWhile p → c ∈ l := by
  intro l
  induction l with
  | nil => intro h; simp at h
  | cons x xs ih =>
    intro h
    by_cases hp : p x = true
    · rw [List.takeWhile_cons, if_pos hp] at h
      rcases List.mem_cons.1 h with rfl | h
      · exact List.mem_cons_self _ _
      · exact List.mem_cons_of_mem _ (ih h)
    · rw [List.takeWhile_cons, if_neg hp] at h
      simp at h

theorem mem_of_mem_dropWhile {p : Char → Bool} {c : Char} :
    ∀ {l : List Char}, c ∈ l.dropWhile p → c ∈ l := by
  intro l
  induction l with
  | nil => intro h; simp at h
  | cons x xs ih =>
    intro h
    by_cases hp : p x = true
    · rw [List.dropWhile_cons, if_pos hp] at h
      exact List.mem_cons_of_mem _ (ih h)
    · rw [List.dropWhile_cons, if_neg hp] at h
      exact h

theorem mem_afterLastNL {c : Char} {l : List Char} (h : c ∈ afterLastNL l) :
    c ∈ l := by
  unfold afterLastNL at h
  rw [List.mem_reverse] at h
  have := mem_of_mem_takeWhile h
  rwa [List.mem_reverse] at this

theorem mem_flushRun {c : Char} {q : List Char} (h : c ∈ flushRun q) :
    c ∈ q ∨ c = '\n' := by
  unfold flushRun at h
  split at h
  · rcases List.mem_append.1 h with h | h
    · exact Or.inl (mem_of_mem_takeWhile h)
    · rcases List.mem_cons.1 h with rfl | h
      · exact Or.inr rfl
      · rcases List.mem_cons.1 h with rfl | h
        · exact Or.inr rfl
        · exact Or.inl (mem_afterLastNL h)
  · exact Or.inl h

theorem mem_collapseNLgo {c : Char} :
    ∀ (s p : List Char), c ∈ collapseNLgo p s → c ∈ p ∨ c ∈ s ∨ c = '\n' := by
  intro s
  induction s with
  | nil =>
    intro p h
    rw [collapseNLgo] at h
    rcases mem_flushRun h with h | h
    · exact Or.inl (List.mem_reverse.1 h)
    · exact Or.inr (Or.inr h)
  | cons x xs ih =>
    intro p h
    rw [collapseNLgo] at h
    split at h
    · rcases ih (x :: p) h with h | h | h
      · rcases List.mem_cons.1 h with rfl | h
        · exact Or.inr (Or.inl (List.mem_cons_self _ _))
        · exact Or.inl h
      · exact Or.inr (Or.inl (List.mem_cons_of_mem _ h))
      · exact Or.inr (Or.inr h)
    · rcases List.mem_append.1 h with h | h
      · rcases mem_flushRun h with h | h
        · exact Or.inl (List.mem_reverse.1 h)
        · exact Or.inr (Or.inr h)
      · rcases List.mem_cons.1 h with rfl | h
        · exact Or.inr (Or.inl (List.mem_cons_self _ _))
        · rcases ih [] h with h | h | h
          · simp at h
          · exact Or.inr (Or.inl (List.mem_cons_of_mem _ h))
          · exact Or.inr (Or.inr h)

theorem mem_collapseSP {c : Char} :
    ∀ (s : List Char), c ∈ collapseSP s → c ∈ s ∨ c = ' ' := by
  intro s
  induction s using collapseSP.induct with
  | case1 =>
    intro h
    simp [collapseSP] at h
  | case2 x hx =>
    intro h
    rw [collapseSP, if_pos hx] at h
    rcases List.mem_singleton.1 h with rfl
    exact Or.inr rfl
  | case3 x hx =>
    intro h
    rw [collapseSP, if_neg hx] at h
    exact Or.inl h
  | case4 x d cs hx hd ih =>
    intro h
    rw [collapseSP, if_pos hx, if_pos hd] at h
    rcases ih h with h | h
    · exact Or.inl (List.mem_cons_of_mem _ h)
    · exact Or.inr h
  | case5 x d cs hx hd ih =>
    intro h
    rw [collapseSP, if_pos hx, if_neg hd] at h
    rcases List.mem_cons.1 h with rfl | h
    · exact Or.inr rfl
    · rcases ih h with h | h
      · exact Or.inl (List.mem_cons_of_mem _ h)
      · exact Or.inr h
  | case6 x d cs hx ih =>
    intro h
    rw [collapseSP, if_neg hx] at h
    rcases List.mem_cons.1 h with rfl | h
    · exact Or.inl (List.mem_cons_self _ _)
    · rcases ih h with h | h
      · exact Or.inl (List.mem_cons_of_mem _ h)
      · exact Or.inr h

theorem mem_dropTrailingWS {c : Char} :
    ∀ (s : List Char), c ∈ dropTrailingWS s → c ∈ s := by
  intro s
  induction s with
  | nil => intro h; simp [dropTrailingWS] at h
  | cons x xs ih =>
    intro h
    rw [dropTrailingWS] at h
    split at h
    · simp at h
    · rcases List.mem_cons.1 h with rfl | h
      · exact List.mem_cons_self _ _
      · exact List.mem_cons_of_mem _ (ih h)

theorem mem_wnorm {c : Char} {l : List Char} (h : c ∈ wnorm l) :
    c ∈ l ∨ c = '\n' ∨ c = ' ' := by
  unfold wnorm pyStrip at h
  have h1 := mem_of_mem_dropWhile (mem_dropTrailingWS _ h)
  rcases mem_collapseSP _ h1 with h2 | h2
  · rcases mem_collapseNLgo _ [] h2 with h3 | h3 | h3
    · simp at h3
    · exact Or.inl h3
    · exact Or.inr (Or.inl h3)
  · exact Or.inr (Or.inr h2)

theorem trigFree_wnorm (l : List Char) (h : trigFree l = true) :
    trigFree (wnorm l) = true := by
  rw [trigFree, List.all_eq_true]
  intro c hc
  rcases mem_wnorm hc with h1 | h1 | h1
  · exact List.all_eq_true.1 h c h1
  · subst h1; decide
  · subst h1; decide

theorem countNL_takeWhile_ne (l : List Char) :
    countNL (l.takeWhile (fun c => !(c == '\n'))) = 0 := by
  induction l with
  | nil => rfl
  | cons x xs ih =>
    by_cases hx : x = '\n'
    · subst hx
      simp [List.takeWhile_cons, countNL]
    · rw [List.takeWhile_cons, if_pos (by simp [hx])]
      simp only [countNL, List.count_cons] at ih ⊢
      simp [hx, ih]

theorem countNL_afterLastNL (l : List Char) : countNL (afterLastNL l) = 0 := by
  unfold afterLastNL
  rw [countNL, List.count_reverse]
  exact countNL_takeWhile_ne l.reverse

theorem flushRun_id (q : List Char) (h : countNL q ≤ 2) : flushRun q = q := by
  unfold flushRun
  rw [if_neg]
  omega

theorem countNL_flushRun (q : List Char) : countNL (flushRun q) ≤ 2 := by
  unfold flushRun
  split
  · have h1 := countNL_takeWhile_ne q
    have h2 := countNL_afterLastNL q
    simp only [countNL, List.count_append, List.count_cons] at h1 h2 ⊢
    simp [h1, h2]
  · rename_i hq
    omega

theorem allWS_reverse (l : List Char) : allWS l.reverse = allWS l := by
  rw [allWS, allWS]
  cases h : l.all isWS
  · rw [← Bool.not_eq_true]
    intro hcon
    rw [List.all_eq_true] at hcon
    have : l.all isWS = true := by
      rw [List.all_eq_true]
      intro c hc
      exact hcon c (List.mem_reverse.2 hc)
    rw [h] at this
    exact Bool.false_ne_true this
  · rw [List.all_eq_true] at h ⊢
    intro c hc
    exact h c (List.mem_reverse.1 hc)

theorem allWS_flushRun (q : List Char) (h : allWS q = true) :
    allWS (flushRun q) = true := by
  rw [allWS, List.all_eq_true]
  intro c hc
  rcases mem_flushRun hc with h1 | h1
  · exact List.all_eq_true.1 h c h1
  · subst h1; decide

theorem allWS_tail (x : Char) (r : List Char) (h : allWS (x :: r) = true) :
    isWS x = true ∧ allWS r = true := by
  rw [allWS, List.all_cons, Bool.and_eq_true] at h
  exact h

theorem runsOKgo_run_cons (r : List Char) :
    ∀ (acc : List Char) (c : Char) (t : List Char),
      allWS r = true → isWS c = false →
      runsOKgo acc (r ++ c :: t) =
        (decide (countNL r + countNL acc ≤ 2) && runsOKgo [] t) := by
  induction r with
  | nil =>
    intro acc c t _ hc
    simp [runsOKgo, hc, countNL]
  | cons x r' ih =>
    intro acc c t hr hc
    obtain ⟨hx, hr'⟩ := allWS_tail x r' hr
    rw [List.cons_append, runsOKgo, if_pos hx, ih (x :: acc) c t hr' hc]
    have heq : countNL r' + countNL (x :: acc) = countNL (x :: r') + countNL acc := by
      simp only [countNL, List.count_cons]
      omega
    rw [heq]

theorem runsOKgo_run_nil (r : List Char) :
    ∀ (acc : List Char), allWS r = true →
      runsOKgo acc r = decide (countNL r + countNL acc ≤ 2) := by
  induction r with
  | nil =>
    intro acc _
    simp [runsOKgo, countNL]
  | cons x r' ih =>
    intro acc hr
    obtain ⟨hx, hr'⟩ := allWS_tail x r' hr
    rw [runsOKgo, if_pos hx, ih (x :: acc) hr']
    have heq : countNL r' + countNL (x :: acc) = countNL (x :: r') + countNL acc := by
      simp only [countNL, List.count_cons]
      omega
    rw [heq]

theorem countNL_reverse (l : List Char) : countNL l.reverse = countNL l := by
  rw [countNL, countNL, List.count_reverse]

theorem collapseNLgo_runsOK :
    ∀ (s p : List Char), allWS p = true → runsOKgo [] (collapseNLgo p s) = true := by
  intro s
  induction s with
  | nil =>
    intro p hp
    rw [collapseNLgo]
    have hws : allWS (flushRun p.reverse) = true :=
      allWS_flushRun _ (by rw [allWS_reverse]; exact hp)
    rw [runsOKgo_run_nil _ [] hws]
    have h2 := countNL_flushRun p.reverse
    have : countNL (flushRun p.reverse) + countNL ([] : List Char) ≤ 2 := by
      simpa [countNL] using h2
    exact decide_eq_true this
  | cons x xs ih =>
    intro p hp
    rw [collapseNLgo]
    by_cases hx : isWS x = true
    · rw [if_pos hx]
      refine ih (x :: p) ?_
      rw [allWS, List.all_cons, hx]
      simpa [allWS] using hp
    · rw [if_neg hx]
      have hws : allWS (flushRun p.reverse) = true :=
        allWS_flushRun _ (by rw [allWS_reverse]; exact hp)
      have hx' : isWS x = false := by
        cases h : isWS x
        · rfl
        · exact absurd h hx
      rw [runsOKgo_run_cons _ [] x _ hws hx']
      have h2 : countNL (flushRun p.reverse) + countNL ([] : List Char) ≤ 2 := by
        simpa [countNL] using countNL_flushRun p.reverse
      rw [decide_eq_true h2, ih [] rfl]
      rfl

theorem collapseNLgo_id :
    ∀ (s p : List Char), runsOKgo p s = true → collapseNLgo p s = p.reverse ++ s := by
  intro s
  induction s with
  | nil =>
    intro p hp
    rw [runsOKgo] at hp
    rw [collapseNLgo, flushRun_id]
    · simp
    · rw [countNL_reverse]
      exact of_decide_eq_true hp
  | cons x xs ih =>
    intro p hp
    rw [runsOKgo] at hp
    rw [collapseNLgo]
    by_cases hx : isWS x = true
    · rw [if_pos hx] at hp ⊢
      rw [ih (x :: p) hp]
      simp
    · rw [if_neg hx] at hp ⊢
      rw [Bool.and_eq_true] at hp
      obtain ⟨h1, h2⟩ := hp
      rw [flushRun_id _ (by rw [countNL_reverse]; exact of_decide_eq_true h1)]
      rw [ih [] h2]
      simp

theorem collapseNL_runsOK (s : List Char) : runsOK (collapseNL s) = true :=
  collapseNLgo_runsOK s [] rfl

theorem collapseNL_id (s : List Char) (h : runsOK s = true) : collapseNL s = s := by
  have h2 := collapseNLgo_id s [] h
  simpa [collapseNL] using h2

theorem st_cases (c : Char) (h : isST c = true) : c = ' ' ∨ c = '\t' := by
  unfold isST at h
  rw [Bool.or_eq_true] at h
  rcases h with h | h
  · exact Or.inl (by simpa using h)
  · exact Or.inr (by simpa using h)

theorem isWS_of_isST (c : Char) (h : isST c = true) : isWS c = true := by
  rcases st_cases c h with rfl | rfl <;> decide

theorem isST_false_of_isWS_false (c : Char) (h : isWS c = false) : isST c = false := by
  cases hst : isST c
  · rfl
  · rw [isWS_of_isST c hst] at h
    exact absurd h (by simp)

theorem countNL_cons_ne (c : Char) (l : List Char) (h : c ≠ '\n') :
    countNL (c :: l) = countNL l := by
  have hb : ('\n' == c) = false := beq_eq_false_iff_ne.mpr (Ne.symm h)
  have hb2 : (c == '\n') = false := beq_eq_false_iff_ne.mpr h
  simp [countNL, List.count_cons, hb, hb2]

theorem st_ne_nl (c : Char) (h : isST c = true) : c ≠ '\n' := by
  rcases st_cases c h with rfl | rfl <;> decide

theorem collapseSP_cons_nonST (c : Char) (t : List Char) (h : isST c = false) :
    collapseSP (c :: t) = c :: collapseSP t := by
  cases t with
  | nil => simp [collapseSP, h]
  | cons d cs =>
    simp only [collapseSP]
    rw [if_neg (by simp [h])]

theorem collapseSP_wsrun (r : List Char) :
    ∀ (t : List Char), allWS r = true →
      (t = [] ∨ ∃ c t', t = c :: t' ∧ isWS c = false) →
      ∃ r2, collapseSP (r ++ t) = r2 ++ collapseSP t ∧ allWS r2 = true ∧
        countNL r2 = countNL r ∧ (r2 = [] ↔ r = []) := by
  induction r with
  | nil =>
    intro t _ _
    exact ⟨[], by simp, rfl, rfl, by simp⟩
  | cons x r' ih =>
    intro t hr ht
    obtain ⟨hx, hr'⟩ := allWS_tail x r' hr
    by_cases hst : isST x = true
    · cases r' with
      | nil =>
        rcases ht with rfl | ⟨c, t', rfl, hc⟩
        · refine ⟨[' '], ?_, by decide, ?_, by simp⟩
          · simp [collapseSP, hst]
          · rw [countNL_cons_ne x [] (st_ne_nl x hst)]
            decide
        · have hcst : isST c = false := isST_false_of_isWS_false c hc
          refine ⟨[' '], ?_, by decide, ?_, by simp⟩
          · simp only [List.cons_append, List.nil_append, collapseSP]
            rw [if_pos hst, if_neg (by simp [hcst])]
          · rw [countNL_cons_ne x [] (st_ne_nl x hst)]
            decide
      | cons y r'' =>
        obtain ⟨hy, hr''⟩ := allWS_tail y r'' hr'
        obtain ⟨r2, heq, hws2, hcnt2, hne2⟩ := ih t hr' ht
        by_cases hyst : isST y = true
        · refine ⟨r2, ?_, hws2, ?_, ?_⟩
          · simp only [List.cons_append, collapseSP]
            rw [if_pos hst, if_pos hyst]
            simp only [List.cons_append, List.append_eq] at heq ⊢
            exact heq
          · rw [hcnt2, countNL_cons_ne x _ (st_ne_nl x hst)]
          · constructor
            · intro h2
              exact absurd (hne2.1 h2) (by simp)
            · intro h2
              exact absurd h2 (by simp)
        · refine ⟨' ' :: r2, ?_, ?_, ?_, ?_⟩
          · simp only [List.cons_append, collapseSP]
            rw [if_pos hst, if_neg hyst]
            simp only [List.cons_append, List.append_eq] at heq ⊢
            rw [heq]
          · rw [allWS, List.all_cons]
            simp only [Bool.and_eq_true]
            exact ⟨by decide, by rw [← allWS]; exact hws2⟩
          · rw [countNL_cons_ne ' ' _ (by decide), hcnt2,
              countNL_cons_ne x _ (st_ne_nl x hst)]
          · constructor
            · intro h2; cases h2
            · intro h2; cases h2
    · have hst' : isST x = false := by
        cases h2 : isST x
        · rfl
        · exact absurd h2 hst
      obtain ⟨r2, heq, hws2, hcnt2, hne2⟩ := ih t hr' ht
      refine ⟨x :: r2, ?_, ?_, ?_, ?_⟩
      · rw [List.cons_append, collapseSP_cons_nonST x _ hst', heq]
        rfl
      · rw [allWS, List.all_cons]
        simp only [Bool.and_eq_true]
        exact ⟨hx, by rw [← allWS]; exact hws2⟩
      · simp only [countNL, List.count_cons]
        simp only [countNL] at hcnt2
        omega
      · constructor
        · intro h2; cases h2
        · intro h2; cases h2

theorem takeWhile_pred {p : Char → Bool} :
    ∀ {l : List Char} {c : Char}, c ∈ l.takeWhile p → p c = true := by
  intro l
  induction l with
  | nil => intro c h; simp at h
  | cons x xs ih =>
    intro c h
    by_cases hp : p x = true
    · rw [List.takeWhile_cons, if_pos hp] at h
      rcases List.mem_cons.1 h with rfl | h
      · exact hp
      · exact ih h
    · rw [List.takeWhile_cons, if_neg hp] at h
      simp at h

theorem dropWhile_head_false {p : Char → Bool} :
    ∀ {l : List Char} {c : Char} {t : List Char},
      l.dropWhile p = c :: t → p c = false := by
  intro l
  induction l with
  | nil => intro c t h; simp at h
  | cons x xs ih =>
    intro c t h
    by_cases hp : p x = true
    · rw [List.dropWhile_cons, if_pos hp] at h
      exact ih h
    · rw [List.dropWhile_cons, if_neg hp] at h
      injection h with h1 h2
      subst h1
      exact Bool.eq_false_iff.mpr hp

theorem ws_run_split (x : Char) (xs : List Char) (hx : isWS x = true) :
    ∃ r t, r ++ t = x :: xs ∧ allWS r = true ∧ 0 < r.length ∧
      (t = [] ∨ ∃ c t', t = c :: t' ∧ isWS c = false) := by
  refine ⟨List.takeWhile isWS (x :: xs), List.dropWhile isWS (x :: xs),
    List.takeWhile_append_dropWhile isWS (x :: xs), ?_, ?_, ?_⟩
  · rw [allWS, List.all_eq_true]
    intro c hc
    exact takeWhile_pred hc
  · rw [List.takeWhile_cons, if_pos hx]
    simp
  · cases hd : List.dropWhile isWS (x :: xs) with
    | nil => exact Or.inl rfl
    | cons c t' => exact Or.inr ⟨c, t', rfl, dropWhile_head_false hd⟩

theorem collapseSP_runsOK_aux :
    ∀ (m : Nat) (s : List Char), s.length ≤ m → runsOK s = true →
      runsOK (collapseSP s) = true := by
  intro m
  induction m with
  | zero =>
    intro s hl _
    have h0 : s = [] := List.length_eq_zero.1 (Nat.le_zero.1 hl)
    subst h0
    rfl
  | succ k ihm =>
    intro s hl hok
    cases s with
    | nil => rfl
    | cons x xs =>
      by_cases hx : isWS x = true
      · obtain ⟨r, t, hrt, hrAll, hrpos, htprop⟩ := ws_run_split x xs hx
        have hlen : r.length + t.length = xs.length + 1 := by
          have h2 := congrArg List.length hrt
          simpa using h2
        rw [← hrt] at hok ⊢
        rcases htprop with rfl | ⟨c, t', rfl, hc⟩
        · rw [List.append_nil] at hok ⊢
          obtain ⟨r2, heq, hws2, hcnt2, _⟩ :=
            collapseSP_wsrun r [] hrAll (Or.inl rfl)
          simp only [collapseSP, List.append_nil] at heq
          rw [heq]
          rw [runsOK, runsOKgo_run_nil _ [] hws2]
          rw [runsOK, runsOKgo_run_nil _ [] hrAll] at hok
          rw [hcnt2]
          exact hok
        · obtain ⟨r2, heq, hws2, hcnt2, _⟩ :=
            collapseSP_wsrun r (c :: t') hrAll (Or.inr ⟨c, t', rfl, hc⟩)
          rw [heq, collapseSP_cons_nonST c t' (isST_false_of_isWS_false c hc)]
          rw [runsOK, runsOKgo_run_cons _ [] c _ hws2 hc]
          rw [runsOK, runsOKgo_run_cons _ [] c _ hrAll hc] at hok
          rw [Bool.and_eq_true] at hok
          obtain ⟨hok1, hok2⟩ := hok
          rw [hcnt2, hok1, Bool.true_and]
          have hlt : t'.length ≤ k := by
            simp only [List.length_cons] at hlen hl
            omega
          exact ihm t' hlt hok2
      · have hx' : isWS x = false := by
          cases h2 : isWS x
          · rfl
          · exact absurd h2 hx
        rw [collapseSP_cons_nonST x xs (isST_false_of_isWS_false x hx')]
        rw [runsOK, runsOKgo, if_neg hx]
        rw [runsOK, runsOKgo, if_neg hx] at hok
        rw [Bool.and_eq_true] at hok
        obtain ⟨hok1, hok2⟩ := hok
        rw [hok1, Bool.true_and]
        have hlt : xs.length ≤ k := by
          simpa using hl
        exact ihm xs hlt hok2

theorem collapseSP_runsOK (s : List Char) (h : runsOK s = true) :
    runsOK (collapseSP s) = true :=
  collapseSP_runsOK_aux s.length s le_rfl h

theorem bool_false_of_not_true {b : Bool} (h : ¬ b = true) : b = false := by
  cases b
  · rfl
  · exact absurd rfl h

theorem collapseSP_noTab : ∀ (s : List Char), '\t' ∉ collapseSP s := by
  intro s
  induction s using collapseSP.induct with
  | case1 =>
    intro h
    simp [collapseSP] at h
  | case2 x hx =>
    intro h
    rw [collapseSP, if_pos hx] at h
    exact absurd (List.mem_singleton.1 h) (by decide)
  | case3 x hx =>
    intro h
    rw [collapseSP, if_neg hx] at h
    have h2 := List.mem_singleton.1 h
    subst h2
    exact hx (by decide)
  | case4 x d cs hx hd ih =>
    intro h
    rw [collapseSP, if_pos hx, if_pos hd] at h
    exact ih h
  | case5 x d cs hx hd ih =>
    intro h
    rw [collapseSP, if_pos hx, if_neg hd] at h
    rcases List.mem_cons.1 h with h2 | h2
    · exact absurd h2 (by decide)
    · exact ih h2
  | case6 x d cs hx ih =>
    intro h
    rw [collapseSP, if_neg hx] at h
    rcases List.mem_cons.1 h with h2 | h2
    · subst h2
      exact hx (by decide)
    · exact ih h2

theorem noAdjST_tail (c : Char) (l : List Char) (h : noAdjST (c :: l) = true) :
    noAdjST l = true := by
  cases l with
  | nil => rfl
  | cons d t =>
    rw [noAdjST, Bool.and_eq_true] at h
    exact h.2

theorem noAdjST_cons_notST (c : Char) (l : List Char) (hc : isST c = false)
    (hl : noAdjST l = true) : noAdjST (c :: l) = true := by
  cases l with
  | nil => rfl
  | cons d t =>
    rw [noAdjST, Bool.and_eq_true]
    exact ⟨by simp [hc], hl⟩

theorem noAdjST_cons_head_notST (c d : Char) (t : List Char)
    (hd : isST d = false) (h : noAdjST (d :: t) = true) :
    noAdjST (c :: d :: t) = true := by
  rw [noAdjST, Bool.and_eq_true]
  exact ⟨by simp [hd], h⟩

theorem collapseSP_noAdjST : ∀ (s : List Char), noAdjST (collapseSP s) = true := by
  intro s
  induction s using collapseSP.induct with
  | case1 => rfl
  | case2 x hx =>
    rw [collapseSP, if_pos hx]
    rfl
  | case3 x hx =>
    rw [collapseSP, if_neg hx]
    rfl
  | case4 x d cs hx hd ih =>
    rw [collapseSP, if_pos hx, if_pos hd]
    exact ih
  | case5 x d cs hx hd ih =>
    rw [collapseSP, if_pos hx, if_neg hd]
    have hdd : isST d = false := bool_false_of_not_true hd
    rw [collapseSP_cons_nonST d cs hdd] at ih ⊢
    exact noAdjST_cons_head_notST ' ' d _ hdd ih
  | case6 x d cs hx ih =>
    rw [collapseSP, if_neg hx]
    exact noAdjST_cons_notST x _ (bool_false_of_not_true hx) ih

theorem collapseSP_id : ∀ (s : List Char), '\t' ∉ s → noAdjST s = true →
    collapseSP s = s := by
  intro s
  induction s using collapseSP.induct with
  | case1 => intro _ _; rfl
  | case2 x hx =>
    intro ht _
    rcases st_cases x hx with rfl | rfl
    · rw [collapseSP, if_pos hx]
    · exact absurd (List.mem_singleton.2 rfl) ht
  | case3 x hx =>
    intro _ _
    rw [collapseSP, if_neg hx]
  | case4 x d cs hx hd ih =>
    intro ht hadj
    rw [noAdjST, Bool.and_eq_true] at hadj
    obtain ⟨h1, _⟩ := hadj
    rw [hx, hd] at h1
    exact absurd h1 (by decide)
  | case5 x d cs hx hd ih =>
    intro ht hadj
    rw [collapseSP, if_pos hx, if_neg hd]
    have hdd : isST d = false := bool_false_of_not_true hd
    have ht' : '\t' ∉ d :: cs := fun hm => ht (List.mem_cons_of_mem _ hm)
    rw [ih ht' (noAdjST_tail _ _ hadj)]
    rcases st_cases x hx with rfl | rfl
    · rfl
    · exact absurd (List.mem_cons_self _ _) ht
  | case6 x d cs hx ih =>
    intro ht hadj
    rw [collapseSP, if_neg hx]
    have ht' : '\t' ∉ d :: cs := fun hm => ht (List.mem_cons_of_mem _ hm)
    rw [ih ht' (noAdjST_tail _ _ hadj)]

theorem dropTrailingWS_allWS (s : List Char) (h : allWS s = true) :
    dropTrailingWS s = [] := by
  induction s with
  | nil => rfl
  | cons x xs ih =>
    obtain ⟨hx, hxs⟩ := allWS_tail x xs h
    simp only [dropTrailingWS]
    rw [ih hxs]
    simp [hx]

theorem dropTrailingWS_cons_nonWS (c : Char) (cs : List Char)
    (h : isWS c = false) :
    dropTrailingWS (c :: cs) = c :: dropTrailingWS cs := by
  simp only [dropTrailingWS]
  rw [if_neg]
  simp [h]

theorem dropTrailingWS_ne_nonWS (c : Char) (cs : List Char)
    (h : isWS c = false) : dropTrailingWS (c :: cs) ≠ [] := by
  rw [dropTrailingWS_cons_nonWS c cs h]
  simp

theorem dropTrailingWS_append (a b : List Char) (hb : dropTrailingWS b ≠ []) :
    dropTrailingWS (a ++ b) = a ++ dropTrailingWS b := by
  induction a with
  | nil => simp
  | cons x a' ih =>
    have hne : a' ++ dropTrailingWS b ≠ [] := by
      intro h2
      rcases List.append_eq_nil.1 h2 with ⟨_, h3⟩
      exact hb h3
    have hfalse : (a' ++ dropTrailingWS b).isEmpty = false := by
      cases h3 : a' ++ dropTrailingWS b with
      | nil => exact absurd h3 hne
      | cons y ys => rfl
    simp only [List.cons_append, dropTrailingWS, List.append_eq]
    rw [ih]
    simp [hfalse]

theorem dropTrailingWS_idem (s : List Char) :
    dropTrailingWS (dropTrailingWS s) = dropTrailingWS s := by
  induction s with
  | nil => rfl
  | cons x xs ih =>
    by_cases h : ((dropTrailingWS xs).isEmpty && isWS x) = true
    · simp only [dropTrailingWS]
      rw [if_pos h]
      rfl
    · simp only [dropTrailingWS]
      rw [if_neg h]
      simp only [dropTrailingWS]
      rw [ih, if_neg h]

theorem head_dropTrailingWS (s : List Char) (h : dropTrailingWS s ≠ []) :
    (dropTrailingWS s).head? = s.head? := by
  cases s with
  | nil => exact absurd rfl h
  | cons x xs =>
    by_cases hc : ((dropTrailingWS xs).isEmpty && isWS x) = true
    · simp only [dropTrailingWS] at h
      rw [if_pos hc] at h
      exact absurd rfl h
    · simp only [dropTrailingWS]
      rw [if_neg hc]
      rfl

theorem runsOK_dropWhileWS : ∀ (s acc : List Char),
    runsOKgo acc s = true → runsOK (s.dropWhile isWS) = true := by
  intro s
  induction s with
  | nil => intro acc _; rfl
  | cons x xs ih =>
    intro acc h
    by_cases hx : isWS x = true
    · rw [List.dropWhile_cons, if_pos hx]
      rw [runsOKgo, if_pos hx] at h
      exact ih (x :: acc) h
    · rw [List.dropWhile_cons, if_neg hx]
      rw [runsOKgo, if_neg hx, Bool.and_eq_true] at h
      rw [runsOK, runsOKgo, if_neg hx]
      rw [h.2]
      simp [countNL]

theorem runsOK_dropTrailingWS_aux :
    ∀ (m : Nat) (s : List Char), s.length ≤ m → runsOK s = true →
      runsOK (dropTrailingWS s) = true := by
  intro m
  induction m with
  | zero =>
    intro s hl _
    have h0 : s = [] := List.length_eq_zero.1 (Nat.le_zero.1 hl)
    subst h0
    rfl
  | succ k ihm =>
    intro s hl hok
    cases s with
    | nil => rfl
    | cons x xs =>
      by_cases hx : isWS x = true
      · obtain ⟨r, t, hrt, hrAll, hrpos, htprop⟩ := ws_run_split x xs hx
        have hlen : r.length + t.length = xs.length + 1 := by
          have h2 := congrArg List.length hrt
          simpa using h2
        rw [← hrt] at hok ⊢
        rcases htprop with rfl | ⟨c, t', rfl, hc⟩
        · rw [List.append_nil] at hok ⊢
          rw [dropTrailingWS_allWS r hrAll]
          rfl
        · have hne : dropTrailingWS (c :: t') ≠ [] := dropTrailingWS_ne_nonWS c t' hc
          rw [dropTrailingWS_append r _ hne, dropTrailingWS_cons_nonWS c t' hc]
          rw [runsOK, runsOKgo_run_cons _ [] c _ hrAll hc]
          rw [runsOK, runsOKgo_run_cons _ [] c _ hrAll hc] at hok
          rw [Bool.and_eq_true] at hok
          obtain ⟨h1, h2⟩ := hok
          rw [h1, Bool.true_and]
          have hlt : t'.length ≤ k := by
            simp only [List.length_cons] at hlen hl
            omega
          exact ihm t' hlt h2
      · rw [dropTrailingWS_cons_nonWS x xs (bool_false_of_not_true hx)]
        rw [runsOK, runsOKgo, if_neg hx] at hok ⊢
        rw [Bool.and_eq_true] at hok ⊢
        obtain ⟨h1, h2⟩ := hok
        refine ⟨h1, ?_⟩
        have hlt : xs.length ≤ k := by simpa using hl
        exact ihm xs hlt h2

theorem noAdjST_dropWhileWS (s : List Char) (h : noAdjST s = true) :
    noAdjST (s.dropWhile isWS) = true := by
  induction s with
  | nil => rfl
  | cons x xs ih =>
    by_cases hx : isWS x = true
    · rw [List.dropWhile_cons, if_pos hx]
      exact ih (noAdjST_tail _ _ h)
    · rw [List.dropWhile_cons, if_neg hx]
      exact h

theorem noAdjST_dropTrailingWS : ∀ (s : List Char), noAdjST s = true →
    noAdjST (dropTrailingWS s) = true := by
  intro s
  induction s with
  | nil => intro _; rfl
  | cons x xs ih =>
    intro h
    by_cases hc : ((dropTrailingWS xs).isEmpty && isWS x) = true
    · simp only [dropTrailingWS]
      rw [if_pos hc]
      rfl
    · simp only [dropTrailingWS]
      rw [if_neg hc]
      cases hu : dropTrailingWS xs with
      | nil => rfl
      | cons y u' =>
        have hhead := head_dropTrailingWS xs (by rw [hu]; simp)
        rw [hu] at hhead
        cases xs with
        | nil => simp [dropTrailingWS] at hu
        | cons z zs =>
          simp only [List.head?_cons, Option.some.injEq] at hhead
          subst hhead
          rw [noAdjST, Bool.and_eq_true]
          refine ⟨?_, ?_⟩
          · rw [noAdjST, Bool.and_eq_true] at h
            exact h.1
          · rw [← hu]
            exact ih (noAdjST_tail _ _ h)

theorem pyStrip_idem (z : List Char) : pyStrip (pyStrip z) = pyStrip z := by
  rw [pyStrip, pyStrip]
  have hdw : (dropTrailingWS (z.dropWhile isWS)).dropWhile isWS =
      dropTrailingWS (z.dropWhile isWS) := by
    cases hu : dropTrailingWS (z.dropWhile isWS) with
    | nil => rfl
    | cons y u' =>
      have hhead := head_dropTrailingWS (z.dropWhile isWS) (by rw [hu]; simp)
      rw [hu] at hhead
      have hyws : isWS y = false := by
        cases hzw : z.dropWhile isWS with
        | nil => rw [hzw] at hhead; simp at hhead
        | cons c cs =>
          rw [hzw] at hhead
          simp only [List.head?_cons, Option.some.injEq] at hhead
          subst hhead
          exact dropWhile_head_false hzw
      rw [List.dropWhile_cons, if_neg (by simp [hyws])]
  rw [hdw, dropTrailingWS_idem]

/-- The whitespace-normalization tail of the pipeline is idempotent. -/
theorem wnorm_idem (s : List Char) : wnorm (wnorm s) = wnorm s := by
  have hz : runsOK (collapseSP (collapseNL s)) = true :=
    collapseSP_runsOK _ (collapseNL_runsOK s)
  have hzt : '\t' ∉ collapseSP (collapseNL s) := collapseSP_noTab _
  have hza : noAdjST (collapseSP (collapseNL s)) = true := collapseSP_noAdjST _
  have key : ∀ z, runsOK z = true → '\t' ∉ z → noAdjST z = true →
      wnorm (pyStrip z) = pyStrip z := by
    intro z hr ht ha
    have h1 : runsOK (pyStrip z) = true := by
      rw [pyStrip]
      exact runsOK_dropTrailingWS_aux _ _ le_rfl (runsOK_dropWhileWS _ [] hr)
    have h2 : '\t' ∉ pyStrip z := by
      intro hm
      rw [pyStrip] at hm
      exact ht (mem_of_mem_dropWhile (mem_dropTrailingWS _ hm))
    have h3 : noAdjST (pyStrip z) = true := by
      rw [pyStrip]
      exact noAdjST_dropTrailingWS _ (noAdjST_dropWhileWS _ ha)
    rw [wnorm, collapseNL_id _ h1, collapseSP_id _ h2 h3, pyStrip_idem]
  exact key (collapseSP (collapseNL s)) hz hzt hza

/-- C3 amended: the normalizer is idempotent on markup-free inputs (no
`*`, `` ` ``, `#`, or bracket characters), where only the whitespace rules
act. -/
theorem C3_idempotent_on_markup_free (s : String)
    (h : trigFree s.data = true) :
    markdown_to_html (markdown_to_html s) = markdown_to_html s := by
  have h1 := m2h_eq_wnorm s h
  have h2 : trigFree (String.mk (wnorm s.data)).data = true :=
    trigFree_wnorm s.data h
  have h3 := m2h_eq_wnorm (String.mk (wnorm s.data)) h2
  rw [h1, h3]
  have h4 : (String.mk (wnorm s.data)).data = wnorm s.data := rfl
  rw [h4, wnorm_idem]

/-- C3 witness: a concrete markup-free legal text with messy whitespace. -/
theorem C3_idempotent_on_markup_free_w :
    trigFree "Срок  аренды:\n\n\n11   месяцев.".data = true ∧
    markdown_to_html (markdown_to_html "Срок  аренды:\n\n\n11   месяцев.") =
      markdown_to_html "Срок  аренды:\n\n\n11   месяцев." :=
  ⟨by decide, C3_idempotent_on_markup_free _ (by decide)⟩

/-- C4 witness for the amended claim: only the error notice is sent and
the session is still awaiting create instructions. -/
theorem C4_build_failure_drops_content_w :
    sentTexts (handle_message 5 ⟨0, 0, 5⟩ ⟨some "create_instructions", none⟩
        "заявление" .netError (.ok (some "ЗАЯВЛЕНИЕ НА ОТПУСК")) false 0).trace =
      [createErrMsg] ∧
    (handle_message 5 ⟨0, 0, 5⟩ ⟨some "create_instructions", none⟩
        "заявление" .netError (.ok (some "ЗАЯВЛЕНИЕ НА ОТПУСК")) false
        0).ud.waiting_for = some "create_instructions" := by
  have h := C4_build_failure_drops_content 5 ⟨0, 0, 5⟩
    ⟨some "create_instructions", none⟩ "заявление" "ЗАЯВЛЕНИЕ НА ОТПУСК"
    .netError 0 rfl (by decide) (by decide)
  exact ⟨h.1, h.2.2⟩

end Bot
